import Mathlib

/-!
Verification of the ScuderiaEstate price-prediction pipeline.

Shallow embedding of the Python sources:
  * `src/ai/train1.py` — postcode parsing, monthly aggregation
    (`preprocess_price_data`), feature engineering (`engineer_features`)
    and the forward projection loop (`predict_future_prices`);
  * `src/server/predictor/predict_price.py` — the lightweight
    single-postcode production predictor;
  * `src/server/preprocess_helper_data.py` — helper lookup tables.

Conventions of the embedding:
  * calendar months are modelled as integers (months since an epoch,
    `year*12 + (month-1)`), so `relativedelta(months=k)` is `± k`;
  * pandas `NaN` is modelled with `Option ℚ` where a value can genuinely be
    missing; columns that are always populated in the real pipeline are
    plain `ℚ`;
  * `np.log1p` / `np.expm1` are transcendental, so they are passed in as
    function parameters (`g`, `ex`) — no theorem below depends on their
    actual values;
  * the trained model is an oracle `FeatureVec → Option ℚ`, where `none`
    models `model.predict` raising an exception.
-/

/-! ## Basic string helpers (Python `str.strip`, `str.upper`, `split(' ')`) -/

/-- Python default whitespace characters used by `str.strip()` and `\s`. -/
def isWsC (c : Char) : Bool :=
  c == ' ' || c == '\t' || c == '\n' || c == '\r' || c == '\x0b' || c == '\x0c'

/-- `str.strip()` on a character list. -/
def pyStrip (l : List Char) : List Char :=
  ((l.dropWhile isWsC).reverse.dropWhile isWsC).reverse

/-- `str.upper()` (ASCII, the only case exercised by postcodes). -/
def pyUpper (l : List Char) : List Char := l.map Char.toUpper

/-- `str.strip()` on `String`. -/
def pyStripS (s : String) : String := ⟨pyStrip s.data⟩

/-- `str.replace(' ', '')` — removes every space. -/
def removeSpaces (s : String) : String := ⟨s.data.filter (fun c => c != ' ')⟩

/-- Python `s.split(' ')`: split on every single space, keeping empty parts. -/
def splitSp : List Char → List (List Char)
  | [] => [[]]
  | c :: cs =>
    if c = ' ' then [] :: splitSp cs
    else
      match splitSp cs with
      | [] => [[c]]
      | s :: ss => (c :: s) :: ss

/-- Drop the maximal whitespace suffix. -/
def dropTrailingWs (l : List Char) : List Char :=
  (l.reverse.dropWhile isWsC).reverse

/-- `a` is a string prefix of `b` (the spec's "District is a prefix of Sector"). -/
def strPre (a b : String) : Bool := b.data.take a.data.length == a.data

/-! ## Postcode parsing (`train1.py` lines 37-61) -/

/-- `[A-Z]` after upper-casing. -/
def isUpC (c : Char) : Bool := 'A' ≤ c && c ≤ 'Z'

/-- `[0-9]`. -/
def isDigC (c : Char) : Bool := '0' ≤ c && c ≤ '9'

/-- `[A-Z0-9]`. -/
def isAlnC (c : Char) : Bool := isUpC c || isDigC c

/-- Full match of the outward-code pattern `[A-Z]{1,2}[0-9][A-Z0-9]?`. -/
def outwardOk : List Char → Bool
  | [a, b] => isUpC a && isDigC b
  | [a, b, c] => (isUpC a && isDigC b && isAlnC c) || (isUpC a && isUpC b && isDigC c)
  | [a, b, c, d] => isUpC a && isUpC b && isDigC c && isAlnC d
  | _ => false

/-- Full match of `^([A-Z]{1,2}[0-9][A-Z0-9]?)\s*([0-9])[A-Z]{2}$` on an
already upper-cased string, returning (outward group, sector digit).
The decomposition is unique: the last three characters must be
digit-letter-letter, the whitespace block is the maximal whitespace run
before them, and the rest must match the outward pattern (which contains
no whitespace). -/
def fullMatch (t : List Char) : Option (List Char × Char) :=
  if t.length < 3 then none
  else
    match t.drop (t.length - 3) with
    | [d, a, b] =>
      if isDigC d && isUpC a && isUpC b then
        if outwardOk (dropTrailingWs (t.take (t.length - 3))) then
          some (dropTrailingWs (t.take (t.length - 3)), d)
        else none
      else none
    | _ => none

/-- `get_outward_code` (train1.py line 37): first space-delimited segment of
the stripped, upper-cased postcode, `none` when empty. -/
def get_outward_code (p : String) : Option String :=
  match splitSp (pyUpper (pyStrip p.data)) with
  | [] => none
  | p0 :: _ => if p0.isEmpty then none else some ⟨p0⟩

/-- `get_postcode_district` (train1.py line 44): identical to the outward code. -/
def get_postcode_district (p : String) : Option String := get_outward_code p

/-- `get_postcode_sector` (train1.py line 48): regex match, else two-part
fallback (outward + first inward char), else bare-outward fallback. -/
def get_postcode_sector (p : String) : Option String :=
  match fullMatch (pyUpper (pyStrip p.data)) with
  | some (o, d) => some ⟨o ++ [' ', d]⟩
  | none =>
    match splitSp (pyUpper (pyStrip p.data)) with
    | [p0, p1] =>
      if !p0.isEmpty && !p1.isEmpty then some ⟨p0 ++ [' ', p1.headD ' ']⟩ else none
    | [p0] => if p0.length > 1 && outwardOk p0 then some ⟨p0⟩ else none
    | _ => none

/-! ## Production single-postcode predictor
(`src/server/predictor/predict_price.py`) -/

/-- Property details parsed from the stdin JSON request (minus `num_years`).
`tfarea` is `Option` because `pd.to_numeric(..., errors='coerce')` keeps NaN. -/
structure ProdInput where
  postcode : String
  property_age : ℚ
  numberrooms : ℚ
  tfarea : Option ℚ

/-- The engineered feature row consumed by the production model pipeline. -/
structure ProdFeat where
  sale_year : ℤ
  sale_month : ℤ
  sale_quarter : ℤ
  ageBand : String
  room_size : ℚ
  borough_mean_price : ℚ
  price_to_borough_mean : ℚ
  property_age : ℚ
  numberrooms : ℚ
  tfarea : ℚ
  deriving DecidableEq

/-- One entry of the emitted `predictions` JSON array. -/
structure YearPred where
  year : ℤ
  predicted_price : ℚ
  deriving DecidableEq

/-- Borough mean/std statistics (borough_stats.json entries). -/
structure BStats where
  mean : ℚ
  std : ℚ
  deriving DecidableEq

/-- Python `dict.get(k)` over an association list. -/
def dictGet (m : List (String × α)) (k : String) : Option α :=
  match m with
  | [] => none
  | (k2, v) :: rest => if k2 == k then some v else dictGet rest k

/-- Number of occurrences of a borough name in a candidate list. -/
def countOcc (l : List String) (b : String) : ℕ :=
  (l.filter (fun x => x == b)).length

/-- Most frequent element of a list (first-seen on ties), `none` when empty. -/
def majorityVote (l : List String) : Option String :=
  l.foldl
    (fun best b =>
      match best with
      | none => some b
      | some b0 => if countOcc l b0 < countOcc l b then some b else best)
    none

/-- Modelled from the spec: the body of `find_borough` in
`src/server/predictor/predict_price.py` (lines 30-32) is elided in the source
(only the placeholder comment `... (keep existing logic) ...` and a trailing
`return None` remain), so the lookup cascade is modelled from the spec's
words: "Maps an input postcode to a borough via exact lookup, else
outward-code-prefix majority vote, else prefix-of-length-3/2 majority vote,
else a designated default bucket" — the default bucket itself is applied by
the caller (line 195 of the source, which is present). -/
def find_borough (pcMap : List (String × String)) (pc : String) : Option String :=
  match dictGet pcMap pc with
  | some b => some b
  | none =>
    match
      (match get_outward_code pc with
       | some o =>
         majorityVote ((pcMap.filter
           (fun kv : String × String => get_outward_code kv.1 == some o)).map
             (fun kv : String × String => kv.2))
       | none => none) with
    | some b => some b
    | none =>
      match majorityVote ((pcMap.filter
          (fun kv : String × String => kv.1.data.take 3 == pc.data.take 3)).map
            (fun kv : String × String => kv.2)) with
      | some b => some b
      | none =>
        majorityVote ((pcMap.filter
          (fun kv : String × String => kv.1.data.take 2 == pc.data.take 2)).map
            (fun kv : String × String => kv.2))

/-- `default_stats = borough_stats_map.get("_DEFAULT_", {"mean": 800000, "std": 0})`
(predict_price.py line 84). -/
def defaultStats (stats : List (String × BStats)) : BStats :=
  (dictGet stats ("_DEFAULT_")).getD ⟨800000, 0⟩

/-- `borough_stats_map.get(borough, default_stats)` (line 90). -/
def usedStats (stats : List (String × BStats)) (borough : String) : BStats :=
  (dictGet stats borough).getD (defaultStats stats)

/-- `default_growth = borough_growth_rates.get("_DEFAULT_", 0.02)` (line 85). -/
def defaultGrowth (growth : List (String × ℚ)) : ℚ :=
  (dictGet growth ("_DEFAULT_")).getD (1/50)

/-- `borough_growth_rates.get(borough, default_growth)` (line 91). -/
def usedGrowth (growth : List (String × ℚ)) (borough : String) : ℚ :=
  (dictGet growth borough).getD (defaultGrowth growth)

/-- `engineer_features` of predict_price.py (lines 35-120): type coercions
with minimum age/rooms, temporal features, construction-age band, safe-divided
room size, compound-growth-adjusted borough mean, and the neutral
price-to-borough-mean ratio. -/
def prodEngineerFeatures (stats : List (String × BStats)) (growth : List (String × ℚ))
    (predYear predMonth baseYear : ℤ) (borough : String) (inp : ProdInput) : ProdFeat :=
  let age := max 0 inp.property_age
  let rooms := max 1 (if inp.numberrooms = 0 then 1 else inp.numberrooms)
  let constructionYear : ℚ := (predYear : ℚ) - age
  let ageBand :=
    if constructionYear < 1900 then "pre1900"
    else if constructionYear ≤ 1950 then "1900-1950"
    else if constructionYear ≤ 2000 then "1951-2000"
    else "2001+"
  let roomSize :=
    match inp.tfarea with
    | none => 0
    | some a => if a = 0 then 0 else a / rooms
  let g := usedGrowth growth borough
  let st := usedStats stats borough
  let adjMean := st.mean * (1 + g) ^ (max 0 (predYear - baseYear)).toNat
  { sale_year := predYear
    sale_month := predMonth
    sale_quarter := (predMonth - 1) / 3 + 1
    ageBand := ageBand
    room_size := roomSize
    borough_mean_price := adjMean
    price_to_borough_mean := 1
    property_age := age
    numberrooms := rooms
    tfarea := inp.tfarea.getD 70 }

/-- `if not (1 <= num_years_to_predict <= 5): num_years_to_predict = 1`
(predict_price.py lines 182-183). -/
def clampYears (n : ℤ) : ℕ := if 1 ≤ n ∧ n ≤ 5 then n.toNat else 1

/-- The prediction loop of predict_price.py (lines 212-300): year 0 is the
raw model output; each later year blends 70% raw output with 30% of a
compounded-growth trend projected from the year-0 prediction. -/
def prodRun (f : ProdFeat → ℚ) (pcMap : List (String × String))
    (stats : List (String × BStats)) (growth : List (String × ℚ))
    (inp : ProdInput) (nYears : ℕ) (cy cm : ℤ) : List YearPred :=
  let borough := (find_borough pcMap inp.postcode).getD ("_DEFAULT_")
  let p0 := f (prodEngineerFeatures stats growth cy cm cy borough inp)
  (List.range nYears).map (fun off : ℕ =>
    let py : ℤ := cy + (off : ℤ)
    let raw := f (prodEngineerFeatures stats growth py cm cy borough inp)
    let price :=
      if off = 0 then raw
      else (7/10) * raw + (3/10) * (p0 * (1 + usedGrowth growth borough) ^ off)
    { year := py, predicted_price := price })

/-- The `__main__` control flow of predict_price.py: missing config files
become structured error results (`FileNotFoundError` → error JSON); otherwise
the horizon is clamped and the prediction loop output is emitted as a
success result.  (NaN/infinite-prediction errors cannot arise over ℚ.) -/
def prodMain (modelO : Option (ProdFeat → ℚ)) (pcMapO : Option (List (String × String)))
    (statsO : Option (List (String × BStats))) (growthO : Option (List (String × ℚ)))
    (inp : ProdInput) (numYears : ℤ) (cy cm : ℤ) : Except String (List YearPred) :=
  match modelO with
  | none => .error "Configuration file missing: model"
  | some f =>
    match pcMapO with
    | none => .error "Configuration file missing: postcode map"
    | some pcMap =>
      match statsO with
      | none => .error "Configuration file missing: borough stats"
      | some stats =>
        match growthO with
        | none => .error "Configuration file missing: borough growth"
        | some growth =>
          .ok (prodRun f pcMap stats growth inp (clampYears numYears) cy cm)

/-! ## Training pipeline: aggregation (`preprocess_price_data`, train1.py
lines 111-236) and feature engineering (`engineer_features`, lines 359-604).

Only the columns the claims mention are modelled; certificate columns
(join and sentinel/median fills) do not interact with any claim and are
omitted. -/

/-- Property types after `prop_type_map` (train1.py line 76). -/
inductive PropType
  | detached
  | semi
  | terraced
  | flat
  | other
  deriving DecidableEq

/-- A raw price-paid transaction (post ingestion): Price, Date (as a month
index `year*12 + (month-1)`), Postcode, mapped property type. -/
structure Tx where
  price : ℚ
  ym : ℤ
  postcode : String
  pt : PropType

/-- A transaction that survived cleaning (postcode parses, price > 1000). -/
structure VTx where
  pcClean : String
  sec : String
  dist : String
  ym : ℤ
  price : ℚ
  pt : PropType
  deriving DecidableEq

/-- `str.upper()` on `String`. -/
def pyUpperS (s : String) : String := ⟨pyUpper s.data⟩

/-- Cleaning of one transaction (preprocess_price_data lines 139-149):
strip/upper the postcode, derive district and sector (dropping the row when
either fails), keep only prices > 1000. -/
def txParse (t : Tx) : Option VTx :=
  let up := pyUpperS (pyStripS t.postcode)
  match get_postcode_district up, get_postcode_sector up with
  | some d, some s =>
    if t.price > 1000 then
      some { pcClean := removeSpaces up, sec := s, dist := d,
             ym := t.ym, price := t.price, pt := t.pt }
    else none
  | _, _ => none

/-- Minimum of a list of integers (`df['Date'].min()`). -/
def listMinZ : List ℤ → Option ℤ
  | [] => none
  | x :: xs =>
    match listMinZ xs with
    | none => some x
    | some m => some (min x m)

/-- Maximum of a list of integers (`index.max()`). -/
def listMaxZ : List ℤ → Option ℤ
  | [] => none
  | x :: xs =>
    match listMaxZ xs with
    | none => some x
    | some m => some (max x m)

/-- `GLOBAL_MIN_DATE`: earliest date over all loaded rows (set in
preprocess_price_data lines 129-133, before the price/postcode filters). -/
def globalMinDate (txs : List Tx) : Option ℤ := listMinZ (txs.map (fun t => t.ym))

/-- Insert into a sorted ℚ list. -/
def insQ (x : ℚ) : List ℚ → List ℚ
  | [] => [x]
  | y :: ys => if x ≤ y then x :: y :: ys else y :: insQ x ys

/-- Insertion sort on ℚ. -/
def sortQ : List ℚ → List ℚ
  | [] => []
  | x :: xs => insQ x (sortQ xs)

/-- pandas median: middle element of the sorted values, or the mean of the
two middle elements for an even count (0 for an empty list, unused). -/
def medianQ (l : List ℚ) : ℚ :=
  let s := sortQ l
  let n := s.length
  if n = 0 then 0
  else if n % 2 = 1 then s.getD (n / 2) 0
  else (s.getD (n / 2 - 1) 0 + s.getD (n / 2) 0) / 2

/-- Deduplicate keeping the first occurrence (order of first appearance). -/
def dedupFirst {α : Type} [DecidableEq α] : List α → List α
  | [] => []
  | x :: xs => x :: (dedupFirst xs).filter (fun y => decide (y ≠ x))

/-- One row of the aggregated monthly panel: the (Postcode, YearMonth) group
with its own median/count, the joined Sector and District aggregates for the
same month, and property-type dummy sums at all three levels.  All numeric
fields are populated by construction (the sector/district groups contain at
least the postcode's own transactions). -/
structure ARow where
  pc : String
  sec : String
  dist : String
  ym : ℤ
  medPC : ℚ
  cntPC : ℚ
  medSEC : ℚ
  cntSEC : ℚ
  medDIST : ℚ
  cntDIST : ℚ
  ptPC : PropType → ℚ
  ptSEC : PropType → ℚ
  ptDIST : PropType → ℚ

/-- Placeholder row (out-of-range index accesses, never hit in theorems). -/
def arow0 : ARow :=
  { pc := "", sec := "", dist := "", ym := 0, medPC := 0, cntPC := 0,
    medSEC := 0, cntSEC := 0, medDIST := 0, cntDIST := 0,
    ptPC := fun _ => 0, ptSEC := fun _ => 0, ptDIST := fun _ => 0 }

/-- Final dedup on (Postcode, YearMonth), keep-first
(preprocess_price_data line 227). -/
def dedupByKey : List ARow → List ARow
  | [] => []
  | r :: rs => r :: (dedupByKey rs).filter (fun r2 => decide (¬(r2.pc = r.pc ∧ r2.ym = r.ym)))

/-- `preprocess_price_data` (train1.py lines 111-236): clean the
transactions, group by (Postcode, Sector, District, YearMonth) for the base
median/count, left-join the (Sector, YearMonth) and (District, YearMonth)
aggregates, join property-type dummy sums grouped by (Postcode, YearMonth) /
(Sector, YearMonth) / (District, YearMonth), dedup on (Postcode, YearMonth)
keep-first. -/
def preprocess_price_data (txs : List Tx) : List ARow :=
  let vs := txs.filterMap txParse
  let keys := dedupFirst (vs.map (fun v => (v.pcClean, v.sec, v.dist, v.ym)))
  dedupByKey (keys.map (fun k =>
    let pc := k.1
    let sec := k.2.1
    let dist := k.2.2.1
    let ym := k.2.2.2
    let g := vs.filter (fun v => decide (v.pcClean = pc ∧ v.sec = sec ∧ v.dist = dist ∧ v.ym = ym))
    let pcg := vs.filter (fun v => decide (v.pcClean = pc ∧ v.ym = ym))
    let sg := vs.filter (fun v => decide (v.sec = sec ∧ v.ym = ym))
    let dg := vs.filter (fun v => decide (v.dist = dist ∧ v.ym = ym))
    { pc := pc, sec := sec, dist := dist, ym := ym,
      medPC := medianQ (g.map (fun v => v.price)), cntPC := (g.length : ℚ),
      medSEC := medianQ (sg.map (fun v => v.price)), cntSEC := (sg.length : ℚ),
      medDIST := medianQ (dg.map (fun v => v.price)), cntDIST := (dg.length : ℚ),
      ptPC := fun p => ((pcg.filter (fun v => decide (v.pt = p))).length : ℚ),
      ptSEC := fun p => ((sg.filter (fun v => decide (v.pt = p))).length : ℚ),
      ptDIST := fun p => ((dg.filter (fun v => decide (v.pt = p))).length : ℚ) }))

/-- Lexicographic strictly-less on strings (pandas string ordering). -/
def charListLt : List Char → List Char → Bool
  | [], [] => false
  | [], _ :: _ => true
  | _ :: _, [] => false
  | a :: as, b :: bs => if a < b then true else if b < a then false else charListLt as bs

/-- String strictly-less. -/
def strLtB (a b : String) : Bool := charListLt a.data b.data

/-- Row ordering of `engineer_features` line 370:
`sort_values(by=['PostcodeDistrict','PostcodeSector','Postcode','YearMonth'])`. -/
def leKey (r1 r2 : ARow) : Bool :=
  if r1.dist ≠ r2.dist then strLtB r1.dist r2.dist
  else if r1.sec ≠ r2.sec then strLtB r1.sec r2.sec
  else if r1.pc ≠ r2.pc then strLtB r1.pc r2.pc
  else decide (r1.ym ≤ r2.ym)

/-- Sorted insert for panel rows. -/
def insRow (x : ARow) : List ARow → List ARow
  | [] => [x]
  | y :: ys => if leKey x y then x :: y :: ys else y :: insRow x ys

/-- Insertion sort of panel rows. -/
def sortRows : List ARow → List ARow
  | [] => []
  | x :: xs => insRow x (sortRows xs)

/-- The sorted panel on which all groupby-shift/rolling operations run. -/
def sortPanel (l : List ARow) : List ARow := sortRows l

/-- Row `i` of the sorted panel. -/
def panelRow (l : List ARow) (i : ℕ) : ARow := (sortPanel l).getD i arow0

/-- The rows before position `i` belonging to the same group as row `i`
(groupby preserves the sorted order inside each group). -/
def priorSame (l : List ARow) (keyf : ARow → String) (i : ℕ) : List ARow :=
  ((sortPanel l).take i).filter (fun r => decide (keyf r = keyf (panelRow l i)))

/-- `df.groupby(keyf)[valf].shift(lag)` evaluated at row `i`: the value
`lag` rows earlier within the same group, `none` (NaN) when the group has
fewer than `lag` earlier rows. -/
def gShift (l : List ARow) (keyf : ARow → String) (valf : ARow → ℚ) (lag i : ℕ) : Option ℚ :=
  ((priorSame l keyf i).reverse.get? (lag - 1)).map valf

/-- `PriceRatio_PC_SEC` (lines 404-412): postcode/sector median with a
neutral 1.0 on a zero denominator. -/
def ratioPcS (r : ARow) : ℚ := if r.medSEC = 0 then 1 else r.medPC / r.medSEC

/-- `PriceRatio_SEC_DIST`. -/
def ratioSecD (r : ARow) : ℚ := if r.medDIST = 0 then 1 else r.medSEC / r.medDIST

/-- The six lagged feature families of `features_to_lag_config`
(lines 419-426). -/
inductive LagFam
  | logPrice
  | ratioPcS
  | ratioSecD
  | countPc
  | countSec
  | countDist
  deriving DecidableEq

/-- Grouping column of each lag family (PC / SEC / DIST level). -/
def famKeyA : LagFam → ARow → String
  | .logPrice => fun r => r.pc
  | .ratioPcS => fun r => r.pc
  | .ratioSecD => fun r => r.sec
  | .countPc => fun r => r.pc
  | .countSec => fun r => r.sec
  | .countDist => fun r => r.dist

/-- Base column of each lag family (`g` models `np.log1p`). -/
def famValA (g : ℚ → ℚ) : LagFam → ARow → ℚ
  | .logPrice => fun r => g r.medPC
  | .ratioPcS => ratioPcS
  | .ratioSecD => ratioSecD
  | .countPc => fun r => r.cntPC
  | .countSec => fun r => r.cntSEC
  | .countDist => fun r => r.cntDIST

/-- Documented default of each lag family (lines 450-466 and 890-895):
counts 0, ratios 1.0, log-price 0.0. -/
def famDefault : LagFam → ℚ
  | .logPrice => 0
  | .ratioPcS => 1
  | .ratioSecD => 1
  | .countPc => 0
  | .countSec => 0
  | .countDist => 0

/-- Raw (unfilled) lag feature at sorted-panel row `i` (line 437). -/
def trainLagRaw (g : ℚ → ℚ) (l : List ARow) (fam : LagFam) (lag i : ℕ) : Option ℚ :=
  gShift l (famKeyA fam) (famValA g fam) lag i

/-- `Option.orElse` written out (pandas `fillna` from another column). -/
def oor (a b : Option ℚ) : Option ℚ :=
  match a with
  | some x => some x
  | none => b

/-- Lag features after the hierarchical NaN fill (lines 450-466): postcode
counts fall back to sector then district then 0, sector counts to district
then 0, ratios to 1.0, log-price to 0.0. -/
def trainLag (g : ℚ → ℚ) (l : List ARow) (fam : LagFam) (lag i : ℕ) : ℚ :=
  match fam with
  | .countPc =>
    (oor (oor (trainLagRaw g l .countPc lag i) (trainLagRaw g l .countSec lag i))
      (trainLagRaw g l .countDist lag i)).getD 0
  | .countSec =>
    (oor (trainLagRaw g l .countSec lag i) (trainLagRaw g l .countDist lag i)).getD 0
  | .countDist => (trainLagRaw g l .countDist lag i).getD 0
  | .ratioPcS => (trainLagRaw g l .ratioPcS lag i).getD 1
  | .ratioSecD => (trainLagRaw g l .ratioSecD lag i).getD 1
  | .logPrice => (trainLagRaw g l .logPrice lag i).getD 0

/-- `MedianPrice_Sector_Anchor_Lag1m` before fills (lines 393-399). -/
def anchorSecRaw (l : List ARow) (i : ℕ) : Option ℚ :=
  gShift l (fun r => r.sec) (fun r => r.medSEC) 1 i

/-- `MedianPrice_District_Anchor_Lag1m` (never filled from anywhere). -/
def anchorDistRaw (l : List ARow) (i : ℕ) : Option ℚ :=
  gShift l (fun r => r.dist) (fun r => r.medDIST) 1 i

/-- Sector anchor after the fill from the district anchor (line 448). -/
def anchorSecFilled (l : List ARow) (i : ℕ) : Option ℚ :=
  oor (anchorSecRaw l i) (anchorDistRaw l i)

/-- Positional indices of the trailing rolling window of size `w` ending at
series position `i` (integer-window `rolling` over the whole series). -/
def winIdx (w i : ℕ) : List ℕ := (List.range (min w (i + 1))).map (fun k => i - k)

/-- `groupby(keyf)[valf].shift(1).rolling(w, min_periods=1).sum()` at global
row `i` (line 486): the rolling window runs over the whole shifted series
(not per group), sums the non-NaN entries, and is NaN when all are NaN. -/
def rollRaw (l : List ARow) (keyf : ARow → String) (valf : ARow → ℚ) (w i : ℕ) : Option ℚ :=
  let vs := (winIdx w i).filterMap (fun j => gShift l keyf valf 1 j)
  if vs.isEmpty then none else some vs.sum

/-- `TxCount_*_Roll_*m` after `fillna(0)` (line 487). -/
def txRoll (l : List ARow) (keyf : ARow → String) (valf : ARow → ℚ) (w i : ℕ) : ℚ :=
  (rollRaw l keyf valf w i).getD 0

/-- Rolling property-type share (lines 494-515): rolling type sum divided by
the rolling transaction total, 0 on a zero denominator. -/
def ptPerc (l : List ARow) (keyf : ARow → String) (cntf ptf : ARow → ℚ) (w i : ℕ) : ℚ :=
  let tot := (rollRaw l keyf cntf w i).getD 0
  let pts := (rollRaw l keyf ptf w i).getD 0
  if tot = 0 then 0 else pts / tot

/-- The three geography levels of the rolling configuration (lines 472-476). -/
inductive GeoLevel
  | pc
  | sec
  | dist
  deriving DecidableEq

/-- Grouping column per level. -/
def levelKeyA : GeoLevel → ARow → String
  | .pc => fun r => r.pc
  | .sec => fun r => r.sec
  | .dist => fun r => r.dist

/-- Transaction-count column per level. -/
def levelCntA : GeoLevel → ARow → ℚ
  | .pc => fun r => r.cntPC
  | .sec => fun r => r.cntSEC
  | .dist => fun r => r.cntDIST

/-- Property-type sum column per level. -/
def levelPtA : GeoLevel → PropType → ARow → ℚ
  | .pc => fun p r => r.ptPC p
  | .sec => fun p r => r.ptSEC p
  | .dist => fun p r => r.ptDIST p

/-- Rolling transaction count feature of the training pipeline. -/
def trainRoll (l : List ARow) (lvl : GeoLevel) (w i : ℕ) : ℚ :=
  txRoll l (levelKeyA lvl) (levelCntA lvl) w i

/-- Rolling property-type percentage feature of the training pipeline. -/
def trainPerc (l : List ARow) (lvl : GeoLevel) (p : PropType) (w i : ℕ) : ℚ :=
  ptPerc l (levelKeyA lvl) (levelCntA lvl) (levelPtA lvl p) w i

/-- Row-retention test of the final cleanup (lines 579-583): the log target
is always present over ℚ and the filled `CountDist_DIST_Lag_18m` is never
NaN, so a row survives iff `MedianPrice_District_Anchor_Lag1m` is non-NaN. -/
def keptRow (l : List ARow) (i : ℕ) : Bool := (anchorDistRaw l i).isSome

/-- One row of the final engineered design matrix (the claim-relevant
columns; the lag/rolling features are recomputed by the feature functions). -/
structure FRow where
  row : ARow
  logMedPC : ℚ
  monthsSinceStart : ℤ
  anchorSec : ℚ
  anchorDist : ℚ
  ratioPS : ℚ
  ratioSD : ℚ

/-- `engineer_features` (train1.py lines 359-604) restricted to the
claim-relevant columns: sort, derive target/calendar/anchor/ratio features,
drop rows lacking the district anchor lag, fill the remaining NaNs with 0. -/
def engineer_features (g : ℚ → ℚ) (minDate : ℤ) (l : List ARow) : List FRow :=
  (List.range (sortPanel l).length).filterMap (fun i =>
    if keptRow l i then
      some { row := panelRow l i
             logMedPC := g (panelRow l i).medPC
             monthsSinceStart := (panelRow l i).ym - minDate
             anchorSec := (anchorSecFilled l i).getD 0
             anchorDist := (anchorDistRaw l i).getD 0
             ratioPS := ratioPcS (panelRow l i)
             ratioSD := ratioSecD (panelRow l i) }
    else none)

/-! ### Spec-side definitions (the claims' words, for refinement checks) -/

/-- Following the words of claim C1: "the lag feature attached to a panel row
at month t equals that geography group's base value at calendar month t−L
(falling back to the documented default only when that month is absent)". -/
def specCalendarLag (l : List ARow) (keyf : ARow → String) (valf : ARow → ℚ)
    (dflt : ℚ) (geoKey : String) (t : ℤ) (lag : ℕ) : ℚ :=
  ((l.find? (fun r => decide (keyf r = geoKey ∧ r.ym = t - lag))).map valf).getD dflt

/-- Following the words of claim C2: a trailing window of calendar months
`[t-w, t-1]` over the geography group's rows. -/
def specCalendarRoll (l : List ARow) (keyf : ARow → String) (valf : ARow → ℚ)
    (geoKey : String) (t : ℤ) (w : ℕ) : ℚ :=
  ((l.filter (fun r => decide (keyf r = geoKey ∧ t - w ≤ r.ym ∧ r.ym ≤ t - 1))).map valf).sum

/-- Following the words of claim C2: percentage mix over the calendar
window, safe-divided to 0 on a zero denominator. -/
def specCalendarPerc (l : List ARow) (keyf : ARow → String) (cntf ptf : ARow → ℚ)
    (geoKey : String) (t : ℤ) (w : ℕ) : ℚ :=
  let tot := specCalendarRoll l keyf cntf geoKey t w
  if tot = 0 then 0 else specCalendarRoll l keyf ptf geoKey t w / tot

/-! ## Forward projection engine (`predict_future_prices`, train1.py
lines 743-1105) -/

/-- One row of the per-request `current_history` panel: the base columns the
per-month recomputation reads (`cols_needed_base`, lines 791-796).  The
postcode is a constant of the request; sector/district strings are set but
never read by the loop's lookups. -/
structure HRow where
  pc : String
  ym : ℤ
  logMedPC : ℚ
  medPC : ℚ
  medSEC : ℚ
  medDIST : ℚ
  ratioPS : ℚ
  ratioSD : ℚ
  cntPC : ℚ
  cntSEC : ℚ
  cntDIST : ℚ
  ptPC : PropType → ℚ
  ptSEC : PropType → ℚ
  ptDIST : PropType → ℚ

/-- History column read for each lag family (lines 889-896). -/
def famColH : LagFam → HRow → ℚ
  | .logPrice => fun r => r.logMedPC
  | .ratioPcS => fun r => r.ratioPS
  | .ratioSecD => fun r => r.ratioSD
  | .countPc => fun r => r.cntPC
  | .countSec => fun r => r.cntSEC
  | .countDist => fun r => r.cntDIST

/-- History transaction-count column per level (lines 912-916). -/
def levelCntH : GeoLevel → HRow → ℚ
  | .pc => fun r => r.cntPC
  | .sec => fun r => r.cntSEC
  | .dist => fun r => r.cntDIST

/-- History property-type sum column per level. -/
def levelPtH : GeoLevel → PropType → HRow → ℚ
  | .pc => fun p r => r.ptPC p
  | .sec => fun p r => r.ptSEC p
  | .dist => fun p r => r.ptDIST p

/-- The feature vector assembled for one synthetic month. -/
structure FeatureVec where
  year : ℤ
  month : ℤ
  monthsSinceStart : ℤ
  anchorSec : ℚ
  anchorDist : ℚ
  lagVal : LagFam → ℕ → ℚ
  rollVal : GeoLevel → ℕ → ℚ
  percVal : GeoLevel → PropType → ℕ → ℚ

/-- `current_history.loc[current_history.index == t]` first match. -/
def histFind (hist : List HRow) (t : ℤ) : Option HRow :=
  hist.find? (fun r => decide (r.ym = t))

/-- Per-month feature derivation of the projection loop (lines 857-946):
calendar features, anchors from month t−1 (0 when absent), lag features from
the calendar lookup `t − lag` with the family defaults, rolling sums over
calendar months `[t−w, t−1]`, and percentage mixes guarded by a positive
total. -/
def buildFV (minDate : ℤ) (hist : List HRow) (t : ℤ) : FeatureVec :=
  { year := Int.fdiv t 12
    month := t % 12 + 1
    monthsSinceStart := t - minDate
    anchorSec :=
      match histFind hist (t - 1) with
      | some r => r.medSEC
      | none => 0
    anchorDist :=
      match histFind hist (t - 1) with
      | some r => r.medDIST
      | none => 0
    lagVal := fun fam lag =>
      match histFind hist (t - lag) with
      | some r => famColH fam r
      | none => famDefault fam
    rollVal := fun lvl w =>
      ((hist.filter (fun r => decide (t - w ≤ r.ym ∧ r.ym ≤ t - 1))).map (levelCntH lvl)).sum
    percVal := fun lvl p w =>
      let tot :=
        ((hist.filter (fun r => decide (t - w ≤ r.ym ∧ r.ym ≤ t - 1))).map (levelCntH lvl)).sum
      let pts :=
        ((hist.filter (fun r => decide (t - w ≤ r.ym ∧ r.ym ≤ t - 1))).map (levelPtH lvl p)).sum
      if 0 < tot then pts / tot else 0 }

/-- One emitted prediction record (line 1012). -/
structure PredRec where
  ym : ℤ
  price : ℚ
  basedOn : String

/-- Mutable state of the projection loop. -/
structure LoopState where
  hist : List HRow
  preds : List PredRec

/-- pandas `~index.duplicated(keep='last')`: keep the last row of each
duplicated month. -/
def keepLast : List HRow → List HRow
  | [] => []
  | x :: xs => if xs.any (fun y => decide (y.ym = x.ym)) then keepLast xs else x :: keepLast xs

/-- Append the synthetic row and deduplicate the index when needed
(lines 1089-1092). -/
def appendDedup (l : List HRow) (r : HRow) : List HRow :=
  if ((l ++ [r]).map (fun x => x.ym)).Nodup then l ++ [r] else keepLast (l ++ [r])

/-- The synthetic history row for month `t` (lines 1015-1052): predicted
price becomes the postcode median, sector/district aggregates are copied
from month t−1 (or set to the predicted price / synthetic count 1 when t−1
is absent), postcode count is 1, type sums are copied (or one synthetic
`Other`), and the ratios are recomputed from the new values. -/
def newHistRow (pcC : String) (hist : List HRow) (t : ℤ) (lp price : ℚ) : HRow :=
  match histFind hist (t - 1) with
  | some pr =>
    { pc := pcC, ym := t, logMedPC := lp, medPC := price,
      medSEC := pr.medSEC, medDIST := pr.medDIST,
      ratioPS := if 0 < pr.medSEC then price / pr.medSEC else 1,
      ratioSD := if 0 < pr.medDIST then pr.medSEC / pr.medDIST else 1,
      cntPC := 1, cntSEC := pr.cntSEC, cntDIST := pr.cntDIST,
      ptPC := pr.ptPC, ptSEC := pr.ptSEC, ptDIST := pr.ptDIST }
  | none =>
    { pc := pcC, ym := t, logMedPC := lp, medPC := price,
      medSEC := price, medDIST := price,
      ratioPS := if 0 < price then price / price else 1,
      ratioSD := if 0 < price then price / price else 1,
      cntPC := 1, cntSEC := 1, cntDIST := 1,
      ptPC := fun p => if p = .other then 1 else 0,
      ptSEC := fun p => if p = .other then 1 else 0,
      ptDIST := fun p => if p = .other then 1 else 0 }

/-- One successful iteration (lines 1001-1092): invert the log prediction
via `ex` (models `np.expm1`) and floor at 0, record the prediction, append
the synthetic row. -/
def stepLoop (pcC lvl : String) (ex : ℚ → ℚ) (st : LoopState) (t : ℤ) (lp : ℚ) : LoopState :=
  let price := max 0 (ex lp)
  { hist := appendDedup st.hist (newHistRow pcC st.hist t lp price)
    preds := st.preds ++ [{ ym := t, price := price, basedOn := lvl }] }

/-- Total stepping: a failing `model.predict` leaves the state unchanged
(used to describe trajectories; the real loop aborts, see `runLoop`). -/
def stepTot (model : FeatureVec → Option ℚ) (ex : ℚ → ℚ) (md : ℤ) (pcC lvl : String)
    (st : LoopState) (t : ℤ) : LoopState :=
  match model (buildFV md st.hist t) with
  | some lp => stepLoop pcC lvl ex st t lp
  | none => st

/-- Trajectory of states along a date list, assuming every step succeeds. -/
def runExact (model : FeatureVec → Option ℚ) (ex : ℚ → ℚ) (md : ℤ) (pcC lvl : String)
    (dates : List ℤ) (st : LoopState) : LoopState :=
  dates.foldl (stepTot model ex md pcC lvl) st

/-- The projection loop (lines 853-1101): on a `model.predict` exception the
loop aborts and the predictions accumulated so far are returned. -/
def runLoop (model : FeatureVec → Option ℚ) (ex : ℚ → ℚ) (md : ℤ) (pcC lvl : String) :
    List ℤ → LoopState → LoopState
  | [], st => st
  | t :: rest, st =>
    match model (buildFV md st.hist t) with
    | none => st
    | some lp => runLoop model ex md pcC lvl rest (stepLoop pcC lvl ex st t lp)

/-- `pd.date_range(start=last+1 month, periods=n, freq='MS')` (line 848). -/
def predDates (last : ℤ) (n : ℕ) : List ℤ :=
  (List.range n).map (fun k : ℕ => last + 1 + (k : ℤ))

/-- `index.max()` of a history panel. -/
def maxYm (l : List HRow) : Option ℤ := listMaxZ (l.map (fun r => r.ym))

/-- Sorted insert by month. -/
def insH (x : HRow) : List HRow → List HRow
  | [] => [x]
  | y :: ys => if x.ym ≤ y.ym then x :: y :: ys else y :: insH x ys

/-- `sort_index()` of the per-postcode history. -/
def sortHist : List HRow → List HRow
  | [] => []
  | x :: xs => insH x (sortHist xs)

/-- `postcode_clean` (line 762): stripped, upper-cased, spaces removed. -/
def pcCleanOf (pc : String) : String := removeSpaces (pyUpperS (pyStripS pc))

/-- The per-request starting history: the engineered rows belonging to this
exact postcode, index-sorted (lines 772-773). -/
def initHist (pc : String) (hist : List HRow) : List HRow :=
  sortHist (hist.filter (fun r => decide (r.pc = pcCleanOf pc)))

/-- `Based_On_History` level: "None" when the postcode has no rows
(lines 775-784). -/
def histLevel (pc : String) (hist : List HRow) : String :=
  if (initHist pc hist).isEmpty then "None" else "Postcode"

/-- `last_known_date`: the postcode history's latest month, falling back to
the whole panel's latest month (lines 777-783). -/
def lastKnown (pc : String) (hist : List HRow) : Option ℤ :=
  if (initHist pc hist).isEmpty then maxYm hist else maxYm (initHist pc hist)

/-- `predict_future_prices` (train1.py lines 743-1105): input validation in
source order (each failure returns `none`, no exception), postcode parsing,
per-postcode history selection with the global-latest-date fallback and the
`Based_On_History` label, then the projection loop. -/
def predict_future_prices (ex : ℚ → ℚ) (modelO : Option (FeatureVec → Option ℚ))
    (postcodeRaw : String) (yearsAhead : ℤ) (featuresList : List String)
    (historyO : Option (List HRow)) (minDateO : Option ℤ) (ptmPresent : Bool) :
    Option (List PredRec) :=
  if (pyStripS postcodeRaw).isEmpty then none
  else if yearsAhead ≤ 0 then none
  else
    match modelO with
    | none => none
    | some model =>
      if featuresList.isEmpty then none
      else
        match historyO with
        | none => none
        | some history =>
          if history.isEmpty then none
          else
            match minDateO with
            | none => none
            | some md =>
              if !ptmPresent then none
              else
                match get_postcode_district (pyUpperS (pyStripS postcodeRaw)),
                    get_postcode_sector (pyUpperS (pyStripS postcodeRaw)) with
                | some _, some _ =>
                  match lastKnown postcodeRaw history with
                  | none => none
                  | some last =>
                    some (runLoop model ex md (pcCleanOf postcodeRaw)
                      (histLevel postcodeRaw history)
                      (predDates last (yearsAhead * 12).toNat)
                      { hist := initHist postcodeRaw history, preds := [] }).preds
                | _, _ => none

/-- A minimal one-row history used by concrete witnesses. -/
def hrowW : HRow :=
  { pc := "AB12CD", ym := 10, logMedPC := 12, medPC := 1, medSEC := 1, medDIST := 1,
    ratioPS := 1, ratioSD := 1, cntPC := 1, cntSEC := 1, cntDIST := 1,
    ptPC := fun _ => 0, ptSEC := fun _ => 0, ptDIST := fun _ => 0 }

/-- The per-postcode projection history row carrying the engineered panel
row's base columns (what `current_history` holds for the loop's lookups). -/
def toHRowA (g : ℚ → ℚ) (r : ARow) : HRow :=
  { pc := r.pc, ym := r.ym, logMedPC := g r.medPC, medPC := r.medPC,
    medSEC := r.medSEC, medDIST := r.medDIST,
    ratioPS := ratioPcS r, ratioSD := ratioSecD r,
    cntPC := r.cntPC, cntSEC := r.cntSEC, cntDIST := r.cntDIST,
    ptPC := r.ptPC, ptSEC := r.ptSEC, ptDIST := r.ptDIST }

/-- A panel viewed as projection history. -/
def histOfPanel (g : ℚ → ℚ) (l : List ARow) : List HRow := l.map (toHRowA g)

/-- The single transaction of the C9 scenario: £200,000, 2020-01
(month index 2020*12+0 = 24240), postcode "AB1 2CD", Detached. -/
def tx9 : Tx := { price := 200000, ym := 24240, postcode := "AB1 2CD", pt := .detached }

/-- Panel row builder for the C1/C2 counterexamples: fixed sector "AA1 1"
and district "AA1", varying postcode, month and postcode-level count. -/
def cxr (ymv : ℤ) (c : ℚ) (pcv : String) : ARow :=
  { arow0 with pc := pcv, sec := "AA1 1", dist := "AA1", ym := ymv, cntPC := c }

/-- C1 counterexample panel: one postcode with rows at months 100 and 102
(month 101 absent), counts 2 and 7. -/
def cx1 : List ARow := [cxr 100 2 ("AA11AA"), cxr 102 7 ("AA11AA")]

/-- C2 counterexample panel: postcode A at months 5, 6, 7 (counts 1, 2, 4)
followed in sorted order by postcode B of the same sector at month 5
(count 8). -/
def cx2 : List ARow :=
  [cxr 5 1 ("AA11AA"), cxr 6 2 ("AA11AA"), cxr 7 4 ("AA11AA"), cxr 5 8 ("AA11AB")]

/-- The varying numeric columns of a contiguous single-postcode panel. -/
structure PanelVals where
  medPC : ℚ
  cntPC : ℚ
  medSEC : ℚ
  cntSEC : ℚ
  medDIST : ℚ
  cntDIST : ℚ
  ptPC : PropType → ℚ
  ptSEC : PropType → ℚ
  ptDIST : PropType → ℚ

/-- Row `k` of a contiguous single-postcode panel starting at month `ym0`. -/
def contigRow (p s d : String) (ym0 : ℤ) (v : ℕ → PanelVals) (k : ℕ) : ARow :=
  { pc := p, sec := s, dist := d, ym := ym0 + k,
    medPC := (v k).medPC, cntPC := (v k).cntPC,
    medSEC := (v k).medSEC, cntSEC := (v k).cntSEC,
    medDIST := (v k).medDIST, cntDIST := (v k).cntDIST,
    ptPC := (v k).ptPC, ptSEC := (v k).ptSEC, ptDIST := (v k).ptDIST }

/-- A single-postcode panel with one row per month for `n` consecutive
months — the shape on which positional shifts and calendar lookups agree. -/
def contigPanel (p s d : String) (ym0 : ℤ) (v : ℕ → PanelVals) (n : ℕ) : List ARow :=
  (List.range n).map (contigRow p s d ym0 v)

/-- Geography key string of each lag family over a single-postcode panel. -/
def famKeyStr (p s d : String) : LagFam → String
  | .logPrice => p
  | .ratioPcS => p
  | .countPc => p
  | .ratioSecD => s
  | .countSec => s
  | .countDist => d

/-- Geography key string of each rolling level over a single-postcode panel. -/
def levelKeyStr (p s d : String) : GeoLevel → String
  | .pc => p
  | .sec => s
  | .dist => d

/-- A model oracle that fails (raises) exactly at the month 12 months after
the corpus minimum date — used to exercise the abort path concretely. -/
def wModel : FeatureVec → Option ℚ :=
  fun fv => if fv.monthsSinceStart = 12 then none else some 1

/-- Concrete panel values for the contiguous-panel witnesses. -/
def wVals : ℕ → PanelVals :=
  fun k =>
    { medPC := (k : ℚ) + 4, cntPC := (k : ℚ) + 1,
      medSEC := (k : ℚ) + 5, cntSEC := (k : ℚ) + 2,
      medDIST := (k : ℚ) + 6, cntDIST := (k : ℚ) + 3,
      ptPC := fun _ => 1, ptSEC := fun _ => 1, ptDIST := fun _ => 1 }

/-! ## Lemmas about the string helpers, towards claim C7 -/

theorem splitSp_ne_nil (t : List Char) : splitSp t ≠ [] := by
  induction t with
  | nil => simp [splitSp]
  | cons c cs ih =>
    by_cases hc : c = ' '
    · simp [splitSp, hc]
    · simp only [splitSp, if_neg hc]
      cases h : splitSp cs with
      | nil => simp
      | cons s ss => simp

theorem splitSp_head (t : List Char) :
    ∃ ss, splitSp t = t.takeWhile (fun c => c != ' ') :: ss := by
  induction t with
  | nil => exact ⟨[], rfl⟩
  | cons c cs ih =>
    by_cases hc : c = ' '
    · subst hc
      exact ⟨splitSp cs, by simp [splitSp, List.takeWhile_cons]⟩
    · obtain ⟨ss, hss⟩ := ih
      refine ⟨ss, ?_⟩
      simp only [splitSp, if_neg hc, hss]
      simp [List.takeWhile_cons, hc]

theorem splitSp_two_le (t : List Char) (h : ' ' ∈ t) : 2 ≤ (splitSp t).length := by
  induction t with
  | nil => simp at h
  | cons c cs ih =>
    by_cases hc : c = ' '
    · subst hc
      have h2 : 1 ≤ (splitSp cs).length := by
        cases hcs : splitSp cs with
        | nil => exact absurd hcs (splitSp_ne_nil cs)
        | cons a b => simp
      have h3 : (splitSp (' ' :: cs)).length = (splitSp cs).length + 1 := by
        simp [splitSp]
      omega
    · have hmem : ' ' ∈ cs := by
        rcases List.mem_cons.mp h with h' | h'
        · exact absurd h'.symm hc
        · exact h'
      have := ih hmem
      simp only [splitSp, if_neg hc]
      cases hcs : splitSp cs with
      | nil => exact absurd hcs (splitSp_ne_nil cs)
      | cons s ss =>
        rw [hcs] at this
        simpa using this

theorem takeWhile_eq_of_append (p : Char → Bool) (xs ys : List Char) (y : Char)
    (hxs : ∀ x ∈ xs, p x = true) (hy : p y = false) :
    (xs ++ y :: ys).takeWhile p = xs := by
  induction xs with
  | nil => simp [List.takeWhile_cons, hy]
  | cons a l ih =>
    have ha : p a = true := hxs a (by simp)
    simp only [List.cons_append, List.takeWhile_cons, ha, if_pos rfl]
    have : ∀ x ∈ l, p x = true := fun x hx => hxs x (by simp [hx])
    simp [ih this]

theorem dropTrailingWs_decomp (l : List Char) :
    ∃ w, l = dropTrailingWs l ++ w ∧ ∀ c ∈ w, isWsC c = true := by
  refine ⟨(l.reverse.takeWhile isWsC).reverse, ?_, ?_⟩
  · show l = (l.reverse.dropWhile isWsC).reverse ++ (l.reverse.takeWhile isWsC).reverse
    rw [← List.reverse_append, List.takeWhile_append_dropWhile, List.reverse_reverse]
  · intro c hc
    rw [List.mem_reverse] at hc
    exact List.mem_takeWhile_imp hc

theorem upAln {c : Char} (h : isUpC c = true) : isAlnC c = true := by
  simp [isAlnC, h]

theorem digAln {c : Char} (h : isDigC c = true) : isAlnC c = true := by
  simp [isAlnC, h]

theorem outwardOk_aln (o : List Char) (h : outwardOk o = true) :
    ∀ c ∈ o, isAlnC c = true := by
  intro c hc
  match o with
  | [] => simp [outwardOk] at h
  | [a] => simp [outwardOk] at h
  | [a, b] =>
    simp only [outwardOk, Bool.and_eq_true] at h
    simp only [List.mem_cons, List.not_mem_nil, or_false] at hc
    rcases hc with rfl | rfl
    · exact upAln h.1
    · exact digAln h.2
  | [a, b, c2] =>
    simp only [outwardOk, Bool.or_eq_true, Bool.and_eq_true] at h
    simp only [List.mem_cons, List.not_mem_nil, or_false] at hc
    rcases h with ⟨⟨ha, hb⟩, hc2⟩ | ⟨⟨ha, hb⟩, hc2⟩
    · rcases hc with rfl | rfl | rfl
      · exact upAln ha
      · exact digAln hb
      · exact hc2
    · rcases hc with rfl | rfl | rfl
      · exact upAln ha
      · exact upAln hb
      · exact digAln hc2
  | [a, b, c2, d] =>
    simp only [outwardOk, Bool.and_eq_true] at h
    obtain ⟨⟨⟨ha, hb⟩, hc2⟩, hd⟩ := h
    simp only [List.mem_cons, List.not_mem_nil, or_false] at hc
    rcases hc with rfl | rfl | rfl | rfl
    · exact upAln ha
    · exact upAln hb
    · exact digAln hc2
    · exact hd
  | a :: b :: c2 :: d :: e :: rest => simp [outwardOk] at h

theorem outwardOk_ne_nil (o : List Char) (h : outwardOk o = true) : o ≠ [] := by
  intro hnil
  subst hnil
  simp [outwardOk] at h

theorem isAlnC_bne_space {c : Char} (h : isAlnC c = true) : (c != ' ') = true := by
  rcases eq_or_ne c ' ' with rfl | hne
  · exact absurd h (by decide)
  · simp [hne]

theorem fullMatch_decomp (t o : List Char) (d : Char) (h : fullMatch t = some (o, d)) :
    ∃ w a b, t = o ++ w ++ [d, a, b] ∧ (∀ c ∈ w, isWsC c = true) ∧
      outwardOk o = true ∧ isDigC d = true ∧ isUpC a = true ∧ isUpC b = true := by
  unfold fullMatch at h
  split at h
  · simp at h
  · split at h
    next d0 a b heq =>
      split at h
      next hcond =>
        split at h
        next hout =>
          simp only [Option.some.injEq, Prod.mk.injEq] at h
          obtain ⟨rfl, rfl⟩ := h
          obtain ⟨w, hw, hwws⟩ := dropTrailingWs_decomp (t.take (t.length - 3))
          refine ⟨w, a, b, ?_, hwws, hout, ?_, ?_, ?_⟩
          · conv_lhs => rw [← List.take_append_drop (t.length - 3) t]
            rw [heq, ← hw]
          · simp only [Bool.and_eq_true] at hcond; exact hcond.1.1
          · simp only [Bool.and_eq_true] at hcond; exact hcond.1.2
          · simp only [Bool.and_eq_true] at hcond; exact hcond.2
        · simp at h
      · simp at h
    next heq => simp at h

/-- C7 counterexample: for the compressed (space-free) postcode "SW1A0AA",
both functions return a value, yet District ("SW1A0AA", the whole string) is
not a prefix of Sector ("SW1A 0"), refuting the claim as stated. -/
theorem C7_counterexample :
    get_postcode_district ("SW1A0AA") = some ("SW1A0AA") ∧
    get_postcode_sector ("SW1A0AA") = some ("SW1A 0") ∧
    strPre ("SW1A0AA") ("SW1A 0") = false := by decide

/-- C7 (amended): `get_postcode_district` and `get_postcode_sector` are pure
functions of the postcode string (they are functions in this embedding), and
whenever both return a value AND the stripped upper-cased postcode contains a
space (with no exotic whitespace), the District string is a prefix of the
Sector string.  The space hypothesis is forced by `C7_counterexample`. -/
theorem C7_district_sector (p dS sS : String)
    (hd : get_postcode_district p = some dS)
    (hs : get_postcode_sector p = some sS)
    (hsp : ' ' ∈ pyUpper (pyStrip p.data))
    (hws : ∀ c ∈ pyUpper (pyStrip p.data), isWsC c = true → c = ' ') :
    strPre dS sS = true := by
  unfold get_postcode_district get_outward_code at hd
  unfold get_postcode_sector at hs
  cases hfm : fullMatch (pyUpper (pyStrip p.data)) with
  | some od =>
    obtain ⟨o, d⟩ := od
    rw [hfm] at hs
    simp only [Option.some.injEq] at hs
    obtain ⟨w, a, b, hteq, hwws, ho, hdd, haa, hbb⟩ :=
      fullMatch_decomp (pyUpper (pyStrip p.data)) o d hfm
    have hwsp : ∀ c ∈ w, c = ' ' := fun c hc =>
      hws c (by rw [hteq]; simp [hc]) (hwws c hc)
    have hspw : ' ' ∈ w := by
      rw [hteq] at hsp
      rcases List.mem_append.mp hsp with h1 | h1
      · rcases List.mem_append.mp h1 with h2 | h2
        · have := outwardOk_aln o ho ' ' h2
          exact absurd this (by decide)
        · exact h2
      · simp only [List.mem_cons, List.not_mem_nil, or_false] at h1
        rcases h1 with rfl | rfl | rfl
        · exact absurd hdd (by decide)
        · exact absurd haa (by decide)
        · exact absurd hbb (by decide)
    obtain ⟨w1, w', rfl⟩ : ∃ w1 w', w = w1 :: w' := by
      cases w with
      | nil => simp at hspw
      | cons x xs => exact ⟨x, xs, rfl⟩
    have hw1 : w1 = ' ' := hwsp w1 (by simp)
    subst hw1
    obtain ⟨ss, hss⟩ := splitSp_head (pyUpper (pyStrip p.data))
    have htw : (pyUpper (pyStrip p.data)).takeWhile (fun c => c != ' ') = o := by
      rw [hteq, List.append_assoc, List.cons_append]
      exact takeWhile_eq_of_append _ o _ ' '
        (fun x hx => isAlnC_bne_space (outwardOk_aln o ho x hx)) (by decide)
    rw [hss, htw] at hd
    have hone : o.isEmpty = false := by
      cases o with
      | nil => exact absurd ho (by decide)
      | cons x xs => rfl
    simp only [hone, Bool.false_eq_true, if_false, Option.some.injEq] at hd
    subst hd
    subst hs
    simp only [strPre]
    have : (o ++ [' ', d]).take o.length = o := List.take_left o [' ', d]
    rw [this]
    exact beq_self_eq_true o
  | none =>
    rw [hfm] at hs
    rcases hsplit : splitSp (pyUpper (pyStrip p.data)) with _ | ⟨p0, _ | ⟨p1, _ | ⟨p2, rest⟩⟩⟩
    · exact absurd hsplit (splitSp_ne_nil _)
    · have := splitSp_two_le _ hsp
      rw [hsplit] at this
      simp at this
    · rw [hsplit] at hs hd
      simp only [] at hs
      split at hs
      next hcond =>
        simp only [Option.some.injEq] at hs
        simp only [Bool.and_eq_true, Bool.not_eq_true'] at hcond
        simp only [hcond.1, Bool.false_eq_true, if_false, Option.some.injEq] at hd
        subst hd
        subst hs
        simp only [strPre]
        have : (p0 ++ [' ', p1.headD ' ']).take p0.length = p0 := List.take_left p0 _
        rw [this]
        exact beq_self_eq_true p0
      next => simp at hs
    · rw [hsplit] at hs
      simp at hs

/-- Witness for C7_district_sector at the concrete postcode "SW1A 0AA". -/
theorem C7_district_sector_witness : strPre ("SW1A") ("SW1A 0") = true :=
  C7_district_sector ("SW1A 0AA") ("SW1A") ("SW1A 0")
    (by decide) (by decide) (by decide) (by decide)

/-! ## Claims C8 and C10 (production predictor) -/

/-- C8: the production predictor maps a postcode to a borough by exact lookup,
else outward-code vote, else prefix-3/2 vote (cascade spec-modelled in
`find_borough` since the source body is elided), else the designated default
bucket; on a total lookup miss the assigned bucket is "_DEFAULT_" and the
mean/growth values actually used are the reserved "_DEFAULT_" entries (with
hard-coded fallbacks 800000 and 0.02), via total functions that never raise. -/
theorem C8_default_bucket (pcMap : List (String × String)) (stats : List (String × BStats))
    (growth : List (String × ℚ)) (pc : String) (inp : ProdInput) (py cm bY : ℤ)
    (h : find_borough pcMap pc = none) :
    (find_borough pcMap pc).getD ("_DEFAULT_") = ("_DEFAULT_")
    ∧ usedStats stats ("_DEFAULT_") = (dictGet stats ("_DEFAULT_")).getD ⟨800000, 0⟩
    ∧ usedGrowth growth ("_DEFAULT_") = (dictGet growth ("_DEFAULT_")).getD (1/50)
    ∧ (prodEngineerFeatures stats growth py cm bY ("_DEFAULT_") inp).borough_mean_price
        = (usedStats stats ("_DEFAULT_")).mean
            * (1 + usedGrowth growth ("_DEFAULT_")) ^ (max 0 (py - bY)).toNat := by
  refine ⟨by rw [h]; rfl, ?_, ?_, rfl⟩
  · unfold usedStats defaultStats
    cases hd : dictGet stats ("_DEFAULT_") <;> simp [hd]
  · unfold usedGrowth defaultGrowth
    cases hd : dictGet growth ("_DEFAULT_") <;> simp [hd]

/-- Witness for C8_default_bucket on concrete empty lookup tables. -/
theorem C8_default_bucket_witness :
    (find_borough [] ("ZZ9 9ZZ")).getD ("_DEFAULT_") = ("_DEFAULT_")
    ∧ usedStats [] ("_DEFAULT_") = (dictGet ([] : List (String × BStats)) ("_DEFAULT_")).getD ⟨800000, 0⟩
    ∧ usedGrowth [] ("_DEFAULT_") = (dictGet ([] : List (String × ℚ)) ("_DEFAULT_")).getD (1/50)
    ∧ (prodEngineerFeatures [] [] 2026 6 2025 ("_DEFAULT_") ⟨("ZZ9 9ZZ"), 10, 2, none⟩).borough_mean_price
        = (usedStats [] ("_DEFAULT_")).mean
            * (1 + usedGrowth [] ("_DEFAULT_")) ^ (max 0 ((2026 : ℤ) - 2025)).toNat :=
  C8_default_bucket [] [] [] ("ZZ9 9ZZ") ⟨("ZZ9 9ZZ"), 10, 2, none⟩ 2026 6 2025 (by decide)

/-- C10: a parsed `num_years` outside 1..5 is silently replaced by 1 (not
rejected), and the success output has exactly the clamped number of yearly
entries for consecutive calendar years starting at the current year. -/
theorem C10_horizon_clamped (f : ProdFeat → ℚ) (pcMap : List (String × String))
    (stats : List (String × BStats)) (growth : List (String × ℚ))
    (inp : ProdInput) (numYears cy cm : ℤ) :
    prodMain (some f) (some pcMap) (some stats) (some growth) inp numYears cy cm
      = .ok (prodRun f pcMap stats growth inp (clampYears numYears) cy cm)
    ∧ ((numYears < 1 ∨ 5 < numYears) → clampYears numYears = 1)
    ∧ (prodRun f pcMap stats growth inp (clampYears numYears) cy cm).length
        = clampYears numYears
    ∧ (prodRun f pcMap stats growth inp (clampYears numYears) cy cm).map
        (fun r => r.year)
        = (List.range (clampYears numYears)).map (fun k : ℕ => cy + (k : ℤ)) := by
  refine ⟨rfl, ?_, ?_, ?_⟩
  · intro h
    unfold clampYears
    rw [if_neg (by omega)]
  · unfold prodRun
    rw [List.length_map, List.length_range]
  · unfold prodRun
    simp [List.map_map]

/-- Witness for C10_horizon_clamped at num_years = 7 (out of range). -/
theorem C10_horizon_clamped_witness :
    clampYears 7 = 1
    ∧ (prodRun (fun _ => (100 : ℚ)) [] [] [] ⟨("AB1 2CD"), 10, 2, none⟩
        (clampYears 7) 2025 6).length = 1 := by
  have h := C10_horizon_clamped (fun _ => (100 : ℚ)) [] [] [] ⟨("AB1 2CD"), 10, 2, none⟩ 7 2025 6
  have hc : clampYears 7 = 1 := h.2.1 (Or.inr (by norm_num))
  exact ⟨hc, by rw [h.2.2.1, hc]⟩

/-! ## Claims C1, C2 — counterexamples -/

/-- C1 counterexample: for a postcode with rows at months 100 and 102 only,
the training-time `groupby().shift(1)` lag at the month-102 row returns the
month-100 count (a positional, not calendar, shift), while the claim's
calendar-month lookup of `t − 1 = 101` (the projection loop's rule) yields
the default 0; the two computations are not identical. -/
theorem C1_counterexample :
    trainLag (fun x => x) cx1 .countPc 1 1 = 2
    ∧ specCalendarLag cx1 (famKeyA .countPc) (famValA (fun x => x) .countPc)
        (famDefault .countPc) ("AA11AA") 102 1 = 0
    ∧ (buildFV 0 (histOfPanel (fun x => x) cx1) 102).lagVal .countPc 1 = 0
    ∧ ¬ (trainLag (fun x => x) cx1 .countPc 1 1
          = (buildFV 0 (histOfPanel (fun x => x) cx1) 102).lagVal .countPc 1) := by
  refine ⟨by decide, by decide, by decide, by decide⟩

/-- C2 counterexample: in a sorted panel [A@5, A@6, A@7, B@5] the training
rolling window for the B@5 row sums the shifted series positionally across
the group boundary, picking up postcode A's counts for months 5 and 6 —
months not strictly earlier than t = 5 — while the claim's trailing calendar
window over B's group (the projection loop's rule) gives 0. -/
theorem C2_counterexample :
    trainRoll cx2 .pc 3 3 = 3
    ∧ specCalendarRoll cx2 (levelKeyA .pc) (levelCntA .pc) ("AA11AB") 5 3 = 0
    ∧ (buildFV 0 (histOfPanel (fun x => x)
        (cx2.filter (fun r => decide (r.pc = ("AA11AB"))))) 5).rollVal .pc 3 = 0
    ∧ ¬ (trainRoll cx2 .pc 3 3
          = specCalendarRoll cx2 (levelKeyA .pc) (levelCntA .pc) ("AA11AB") 5 3) := by
  refine ⟨by with_unfolding_all decide, by decide, by with_unfolding_all decide,
    by with_unfolding_all decide⟩

/-! ## Claim C9 -/

/-- At sorted-panel row 0 every lag feature equals its documented default:
the group has no earlier rows, so every raw shift is NaN and the fills
apply. -/
theorem trainLag_zero (g : ℚ → ℚ) (l : List ARow) (fam : LagFam) (lag : ℕ) :
    trainLag g l fam lag 0 = famDefault fam := by
  have h : ∀ (keyf : ARow → String) (valf : ARow → ℚ), gShift l keyf valf lag 0 = none := by
    intro keyf valf
    simp [gShift, priorSame]
  cases fam <;> simp [trainLag, trainLagRaw, h, oor, famDefault]

/-- C9 counterexample: the aggregation of the single C9 transaction produces
exactly one panel row (for 2020-01, count 1), yet the engineered design
matrix is empty — the insufficient-history floor (missing
`MedianPrice_District_Anchor_Lag1m`) drops the only row, so the matrix does
not contain a feature row for 2020-01. -/
theorem C9_counterexample :
    (preprocess_price_data [tx9]).length = 1
    ∧ ((preprocess_price_data [tx9]).getD 0 arow0).ym = 24240
    ∧ ((preprocess_price_data [tx9]).getD 0 arow0).cntPC = 1
    ∧ (engineer_features (fun x => x) 24240 (preprocess_price_data [tx9])).isEmpty = true := by
  refine ⟨by decide, by decide, by decide, by decide⟩

/-- C9 (amended): feeding the single transaction (£200,000, 2020-01,
"AB1 2CD", Detached), the aggregated panel row for 2020-01 has
`TransactionCount_Postcode = 1` and every lag feature carries its documented
default (ratio lags 1.0, count lags 0, log-price lag 0.0) — but the final
design matrix is empty, because the row is dropped by the essential-feature
floor (its district anchor lag is NaN). -/
theorem C9_single_transaction (g : ℚ → ℚ) (lag : ℕ) :
    globalMinDate [tx9] = some 24240
    ∧ (preprocess_price_data [tx9]).length = 1
    ∧ ((preprocess_price_data [tx9]).getD 0 arow0).cntPC = 1
    ∧ ((preprocess_price_data [tx9]).getD 0 arow0).ym = 24240
    ∧ trainLag g (preprocess_price_data [tx9]) .ratioPcS lag 0 = 1
    ∧ trainLag g (preprocess_price_data [tx9]) .ratioSecD lag 0 = 1
    ∧ trainLag g (preprocess_price_data [tx9]) .countPc lag 0 = 0
    ∧ trainLag g (preprocess_price_data [tx9]) .countSec lag 0 = 0
    ∧ trainLag g (preprocess_price_data [tx9]) .countDist lag 0 = 0
    ∧ trainLag g (preprocess_price_data [tx9]) .logPrice lag 0 = 0
    ∧ engineer_features g 24240 (preprocess_price_data [tx9]) = [] := by
  refine ⟨by decide, by decide, by decide, by decide,
    trainLag_zero g _ .ratioPcS lag, trainLag_zero g _ .ratioSecD lag,
    trainLag_zero g _ .countPc lag, trainLag_zero g _ .countSec lag,
    trainLag_zero g _ .countDist lag, trainLag_zero g _ .logPrice lag, ?_⟩
  have hk : keptRow (preprocess_price_data [tx9]) 0 = false := by decide
  have hlen : (sortPanel (preprocess_price_data [tx9])).length = 1 := by decide
  unfold engineer_features
  rw [hlen]
  have hr1 : List.range 1 = [0] := by decide
  simp [hr1, hk]

/-! ## Claim C5 -/

/-- C5 counterexample: the production predictor, given a non-positive
horizon (num_years = 0) and present configuration, does NOT report an
input-validation error — it silently clamps the horizon to 1 and emits a
success result with one yearly entry. -/
theorem C5_counterexample :
    prodMain (some (fun _ => (5 : ℚ))) (some []) (some []) (some [])
      ⟨("ZZ1 1ZZ"), 10, 2, none⟩ 0 2026 6
      = .ok [{ year := 2026, predicted_price := 5 }] := by
  with_unfolding_all rfl

/-- C5 (amended): every input-validation failure of the batch
`predict_future_prices` — empty/blank postcode, non-positive horizon, absent
model, empty feature list, absent or empty history, unset corpus-minimum-date
anchor, unparseable postcode — returns `none` immediately (the function is
total, so no exception); the production variant however does NOT report a
non-positive horizon: it silently clamps it to 1 and succeeds with one
entry. -/
theorem C5_validation (ex : ℚ → ℚ) (modelO : Option (FeatureVec → Option ℚ))
    (pc : String) (years : ℤ) (fl : List String) (histO : Option (List HRow))
    (mdO : Option ℤ) (ptm : Bool)
    (f : ProdFeat → ℚ) (pcMap : List (String × String)) (stats : List (String × BStats))
    (growth : List (String × ℚ)) (inp : ProdInput) (n cy cm : ℤ) :
    ((pyStripS pc).isEmpty = true →
      predict_future_prices ex modelO pc years fl histO mdO ptm = none)
    ∧ (years ≤ 0 → predict_future_prices ex modelO pc years fl histO mdO ptm = none)
    ∧ (modelO = none → predict_future_prices ex modelO pc years fl histO mdO ptm = none)
    ∧ (fl = [] → predict_future_prices ex modelO pc years fl histO mdO ptm = none)
    ∧ (histO = none ∨ histO = some [] →
        predict_future_prices ex modelO pc years fl histO mdO ptm = none)
    ∧ (mdO = none → predict_future_prices ex modelO pc years fl histO mdO ptm = none)
    ∧ ((get_postcode_district (pyUpperS (pyStripS pc)) = none ∨
        get_postcode_sector (pyUpperS (pyStripS pc)) = none) →
        predict_future_prices ex modelO pc years fl histO mdO ptm = none)
    ∧ (n ≤ 0 →
        prodMain (some f) (some pcMap) (some stats) (some growth) inp n cy cm
          = .ok (prodRun f pcMap stats growth inp 1 cy cm)
        ∧ (prodRun f pcMap stats growth inp 1 cy cm).length = 1) := by
  refine ⟨?_, ?_, ?_, ?_, ?_, ?_, ?_, ?_⟩
  · intro h
    simp [predict_future_prices, h]
  · intro h
    simp [predict_future_prices, h]
  · rintro rfl
    simp [predict_future_prices]
  · rintro rfl
    rcases modelO with _ | m <;> simp [predict_future_prices]
  · rintro (rfl | rfl) <;> rcases modelO with _ | m <;> simp [predict_future_prices]
  · rintro rfl
    rcases modelO with _ | m <;> rcases histO with _ | hist <;>
      simp [predict_future_prices]
  · intro h
    rcases modelO with _ | m
    · simp [predict_future_prices]
    · rcases histO with _ | hist
      · simp [predict_future_prices]
      · rcases mdO with _ | md
        · simp [predict_future_prices]
        · rcases h with h | h
          · simp [predict_future_prices, h]
          · cases hd : get_postcode_district (pyUpperS (pyStripS pc)) with
            | none => simp [predict_future_prices, hd]
            | some dv => simp [predict_future_prices, hd, h]
  · intro h
    have hc : clampYears n = 1 := by
      unfold clampYears
      rw [if_neg (by omega)]
    constructor
    · show Except.ok (prodRun f pcMap stats growth inp (clampYears n) cy cm) = _
      rw [hc]
    · unfold prodRun
      rw [List.length_map, List.length_range]

/-- Witness for C5_validation: a concrete non-positive batch horizon yields
`none`, and the clamped production run has exactly one entry. -/
theorem C5_validation_witness :
    predict_future_prices (fun x => x) (some (fun _ => some 1)) ("AB1 2CD") 0 [("f")]
      (some [hrowW]) (some 0) true = none
    ∧ (prodRun (fun _ => (5 : ℚ)) [] [] [] ⟨("ZZ1 1ZZ"), 10, 2, none⟩ 1 2026 6).length = 1 := by
  have h := C5_validation (fun x => x) (some (fun _ => some 1)) ("AB1 2CD") 0 [("f")]
    (some [hrowW]) (some 0) true (fun _ => (5 : ℚ)) [] [] []
    ⟨("ZZ1 1ZZ"), 10, 2, none⟩ 0 2026 6
  exact ⟨h.2.1 (by norm_num), (h.2.2.2.2.2.2.2 (by norm_num)).2⟩

/-! ## Projection-loop lemmas towards claims C3, C4, C6 -/

theorem listMaxZ_ne_nil (l : List ℤ) (h : l ≠ []) : ∃ m, listMaxZ l = some m := by
  cases l with
  | nil => exact absurd rfl h
  | cons x xs =>
    cases hxs : listMaxZ xs with
    | none => exact ⟨x, by simp [listMaxZ, hxs]⟩
    | some m => exact ⟨max x m, by simp [listMaxZ, hxs]⟩

theorem le_listMaxZ (l : List ℤ) (x m : ℤ) (hx : x ∈ l) (hm : listMaxZ l = some m) : x ≤ m := by
  induction l generalizing m with
  | nil => simp at hx
  | cons y ys ih =>
    cases hys : listMaxZ ys with
    | none =>
      cases ys with
      | nil =>
        simp only [List.mem_singleton] at hx
        subst hx
        simp only [listMaxZ] at hm
        injection hm with hm
        omega
      | cons z zs =>
        simp only [listMaxZ] at hys
        cases hzs : listMaxZ zs <;> rw [hzs] at hys <;> simp at hys
    | some m2 =>
      simp only [listMaxZ, hys] at hm
      injection hm with hm
      rcases List.mem_cons.mp hx with rfl | hx'
      · omega
      · have := ih m2 hx' hys
        omega

theorem listMaxZ_append_one (l : List ℤ) (x m : ℤ) (hm : listMaxZ l = some m) :
    listMaxZ (l ++ [x]) = some (max m x) := by
  induction l generalizing m with
  | nil => simp [listMaxZ] at hm
  | cons y ys ih =>
    cases hys : listMaxZ ys with
    | none =>
      cases ys with
      | nil =>
        simp only [listMaxZ] at hm
        injection hm with hm
        subst hm
        simp [listMaxZ]
      | cons z zs =>
        simp only [listMaxZ] at hys
        cases hzs : listMaxZ zs <;> rw [hzs] at hys <;> simp at hys
    | some m2 =>
      simp only [listMaxZ, hys] at hm
      injection hm with hm
      subst hm
      have hih := ih m2 hys
      simp only [List.cons_append, listMaxZ, List.append_eq, hih, max_assoc]

theorem newHistRow_ym (pcC : String) (h : List HRow) (t : ℤ) (lp price : ℚ) :
    (newHistRow pcC h t lp price).ym = t := by
  unfold newHistRow
  cases histFind h (t - 1) <;> rfl

theorem appendDedup_fresh (l : List HRow) (r : HRow)
    (hf : ∀ x ∈ l, x.ym ≠ r.ym) (hl : (l.map (fun x => x.ym)).Nodup) :
    appendDedup l r = l ++ [r] := by
  unfold appendDedup
  rw [if_pos]
  rw [List.map_append]
  refine List.Nodup.append hl (by simp) ?_
  intro a ha hb
  simp only [List.map_cons, List.map_nil, List.mem_singleton] at hb
  subst hb
  obtain ⟨x, hx, hxy⟩ := List.mem_map.mp ha
  exact hf x hx hxy

theorem predDates_length (last : ℤ) (n : ℕ) : (predDates last n).length = n := by
  unfold predDates
  rw [List.length_map, List.length_range]

theorem predDates_getElem (last : ℤ) (n j : ℕ) (hj : j < n) :
    (predDates last n)[j]? = some (last + 1 + j) := by
  unfold predDates
  simp [List.getElem?_map, List.getElem?_range, hj]

theorem predDates_getD (last : ℤ) (n j : ℕ) (hj : j < n) :
    (predDates last n).getD j 0 = last + 1 + j := by
  rw [List.getD_eq_getElem?_getD, predDates_getElem last n j hj]
  rfl

theorem runLoop_eq_runExact (model : FeatureVec → Option ℚ) (ex : ℚ → ℚ) (md : ℤ)
    (pcC lvl : String) (hmt : ∀ fv, (model fv).isSome) :
    ∀ (dates : List ℤ) (st : LoopState),
      runLoop model ex md pcC lvl dates st = runExact model ex md pcC lvl dates st := by
  intro dates
  induction dates with
  | nil => intro st; rfl
  | cons t rest ih =>
    intro st
    obtain ⟨lp, hm⟩ := Option.isSome_iff_exists.mp (hmt (buildFV md st.hist t))
    show (match model (buildFV md st.hist t) with
      | none => st
      | some lp => runLoop model ex md pcC lvl rest (stepLoop pcC lvl ex st t lp)) = _
    rw [hm]
    show runLoop model ex md pcC lvl rest (stepLoop pcC lvl ex st t lp)
      = runExact model ex md pcC lvl (t :: rest) st
    rw [ih]
    unfold runExact
    rw [List.foldl_cons]
    have hst : stepTot model ex md pcC lvl st t = stepLoop pcC lvl ex st t lp := by
      unfold stepTot
      rw [hm]
    rw [hst]

theorem runLoop_total_shape (model : FeatureVec → Option ℚ) (ex : ℚ → ℚ) (md : ℤ)
    (pcC lvl : String) (hmt : ∀ fv, (model fv).isSome) :
    ∀ (dates : List ℤ) (st : LoopState),
      ((runLoop model ex md pcC lvl dates st).preds).length = st.preds.length + dates.length
      ∧ ∀ r ∈ (runLoop model ex md pcC lvl dates st).preds,
          r ∈ st.preds ∨ (0 ≤ r.price ∧ r.basedOn = lvl) := by
  intro dates
  induction dates with
  | nil => exact fun st => ⟨by simp [runLoop], fun r hr => Or.inl hr⟩
  | cons t rest ih =>
    intro st
    obtain ⟨lp, hm⟩ := Option.isSome_iff_exists.mp (hmt (buildFV md st.hist t))
    have hstep : runLoop model ex md pcC lvl (t :: rest) st
        = runLoop model ex md pcC lvl rest (stepLoop pcC lvl ex st t lp) := by
      show (match model (buildFV md st.hist t) with
        | none => st
        | some lp => runLoop model ex md pcC lvl rest (stepLoop pcC lvl ex st t lp)) = _
      rw [hm]
    obtain ⟨ihl, ihm⟩ := ih (stepLoop pcC lvl ex st t lp)
    rw [hstep]
    constructor
    · rw [ihl]
      show (st.preds ++ [({ ym := t, price := max 0 (ex lp), basedOn := lvl } : PredRec)]).length
        + rest.length = _
      rw [List.length_append]
      simp
      omega
    · intro r hr
      rcases ihm r hr with hin | hgood
      · rcases List.mem_append.mp hin with hin' | hin'
        · exact Or.inl hin'
        · simp only [List.mem_singleton] at hin'
          subst hin'
          exact Or.inr ⟨le_max_left 0 _, rfl⟩
      · exact Or.inr hgood

theorem runLoop_abort (model : FeatureVec → Option ℚ) (ex : ℚ → ℚ) (md : ℤ)
    (pcC lvl : String) :
    ∀ (dates : List ℤ) (st : LoopState) (k : ℕ), k < dates.length →
      (∀ j, j < k →
        (model (buildFV md (runExact model ex md pcC lvl (dates.take j) st).hist
          (dates.getD j 0))).isSome) →
      model (buildFV md (runExact model ex md pcC lvl (dates.take k) st).hist
        (dates.getD k 0)) = none →
      runLoop model ex md pcC lvl dates st = runExact model ex md pcC lvl (dates.take k) st := by
  intro dates
  induction dates with
  | nil =>
    intro st k hk
    simp at hk
  | cons t rest ih =>
    intro st k hk hsucc hfail
    cases k with
    | zero =>
      have hfail' : model (buildFV md st.hist t) = none := hfail
      show (match model (buildFV md st.hist t) with
        | none => st
        | some lp => runLoop model ex md pcC lvl rest (stepLoop pcC lvl ex st t lp))
        = runExact model ex md pcC lvl ((t :: rest).take 0) st
      rw [hfail']
      rfl
    | succ k2 =>
      have h0 : (model (buildFV md st.hist t)).isSome := hsucc 0 (Nat.succ_pos k2)
      obtain ⟨lp, hm⟩ := Option.isSome_iff_exists.mp h0
      have hstep : stepTot model ex md pcC lvl st t = stepLoop pcC lvl ex st t lp := by
        unfold stepTot
        rw [hm]
      have hLHS : runLoop model ex md pcC lvl (t :: rest) st
          = runLoop model ex md pcC lvl rest (stepLoop pcC lvl ex st t lp) := by
        show (match model (buildFV md st.hist t) with
          | none => st
          | some lp => runLoop model ex md pcC lvl rest (stepLoop pcC lvl ex st t lp)) = _
        rw [hm]
      have hk2 : k2 < rest.length := by
        simp only [List.length_cons] at hk
        omega
      have hsucc' : ∀ j, j < k2 →
          (model (buildFV md (runExact model ex md pcC lvl (rest.take j)
            (stepLoop pcC lvl ex st t lp)).hist (rest.getD j 0))).isSome := by
        intro j hj
        have hs := hsucc (j + 1) (by omega)
        rw [List.take_succ_cons] at hs
        have heq : runExact model ex md pcC lvl (t :: rest.take j) st
            = runExact model ex md pcC lvl (rest.take j) (stepLoop pcC lvl ex st t lp) := by
          unfold runExact
          rw [List.foldl_cons, hstep]
        rw [heq] at hs
        simpa using hs
      have hfail' : model (buildFV md (runExact model ex md pcC lvl (rest.take k2)
          (stepLoop pcC lvl ex st t lp)).hist (rest.getD k2 0)) = none := by
        have hf := hfail
        rw [List.take_succ_cons] at hf
        have heq : runExact model ex md pcC lvl (t :: rest.take k2) st
            = runExact model ex md pcC lvl (rest.take k2) (stepLoop pcC lvl ex st t lp) := by
          unfold runExact
          rw [List.foldl_cons, hstep]
        rw [heq] at hf
        simpa using hf
      rw [hLHS, ih (stepLoop pcC lvl ex st t lp) k2 hk2 hsucc' hfail']
      rw [List.take_succ_cons]
      show _ = runExact model ex md pcC lvl (rest.take k2)
        (stepTot model ex md pcC lvl st t)
      rw [hstep]

theorem runExact_take_length (model : FeatureVec → Option ℚ) (ex : ℚ → ℚ) (md : ℤ)
    (pcC lvl : String) :
    ∀ (dates : List ℤ) (st : LoopState) (k : ℕ), k ≤ dates.length →
      (∀ j, j < k →
        (model (buildFV md (runExact model ex md pcC lvl (dates.take j) st).hist
          (dates.getD j 0))).isSome) →
      ((runExact model ex md pcC lvl (dates.take k) st).preds).length
        = st.preds.length + k := by
  intro dates
  induction dates with
  | nil =>
    intro st k hk _
    simp only [List.length_nil, Nat.le_zero] at hk
    subst hk
    simp [runExact]
  | cons t rest ih =>
    intro st k hk hsucc
    cases k with
    | zero => simp [runExact]
    | succ k2 =>
      have h0 : (model (buildFV md st.hist t)).isSome := hsucc 0 (Nat.succ_pos k2)
      obtain ⟨lp, hm⟩ := Option.isSome_iff_exists.mp h0
      have hstep : stepTot model ex md pcC lvl st t = stepLoop pcC lvl ex st t lp := by
        unfold stepTot
        rw [hm]
      have hsucc' : ∀ j, j < k2 →
          (model (buildFV md (runExact model ex md pcC lvl (rest.take j)
            (stepLoop pcC lvl ex st t lp)).hist (rest.getD j 0))).isSome := by
        intro j hj
        have hs := hsucc (j + 1) (by omega)
        rw [List.take_succ_cons] at hs
        have heq : runExact model ex md pcC lvl (t :: rest.take j) st
            = runExact model ex md pcC lvl (rest.take j) (stepLoop pcC lvl ex st t lp) := by
          unfold runExact
          rw [List.foldl_cons, hstep]
        rw [heq] at hs
        simpa using hs
      have hk2 : k2 ≤ rest.length := by
        simp only [List.length_cons] at hk
        omega
      rw [List.take_succ_cons]
      have heq : runExact model ex md pcC lvl (t :: rest.take k2) st
          = runExact model ex md pcC lvl (rest.take k2) (stepLoop pcC lvl ex st t lp) := by
        unfold runExact
        rw [List.foldl_cons, hstep]
      rw [heq, ih (stepLoop pcC lvl ex st t lp) k2 hk2 hsucc']
      show (st.preds ++ [({ ym := t, price := max 0 (ex lp), basedOn := lvl } : PredRec)]).length
        + k2 = _
      rw [List.length_append]
      simp
      omega

/-- Shared reduction: under valid inputs the batch predictor returns exactly
the projection loop's prediction list. -/
theorem predict_eq_runLoop (ex : ℚ → ℚ) (model : FeatureVec → Option ℚ) (pc : String)
    (years : ℤ) (fl : List String) (hist : List HRow) (md : ℤ) (last : ℤ)
    (hy : 1 ≤ years) (hfl : fl ≠ []) (hh : hist ≠ [])
    (hne : (pyStripS pc).isEmpty = false)
    (hd : (get_postcode_district (pyUpperS (pyStripS pc))).isSome = true)
    (hs : (get_postcode_sector (pyUpperS (pyStripS pc))).isSome = true)
    (hlast : lastKnown pc hist = some last) :
    predict_future_prices ex (some model) pc years fl (some hist) (some md) true
      = some ((runLoop model ex md (pcCleanOf pc) (histLevel pc hist)
          (predDates last (years * 12).toNat)
          { hist := initHist pc hist, preds := [] }).preds) := by
  obtain ⟨dv, hdv⟩ := Option.isSome_iff_exists.mp hd
  obtain ⟨sv, hsv⟩ := Option.isSome_iff_exists.mp hs
  have hy' : ¬ years ≤ 0 := by omega
  simp [predict_future_prices, hne, hy', hfl, hh, hdv, hsv, hlast]

/-! ## Claim C4 -/

/-- C4: for every valid request (non-blank postcode that parses to District
and Sector; model, non-empty feature list, non-empty history and minimum
date present) in which no per-month model prediction fails,
`predict_future_prices` returns exactly `years_ahead * 12` monthly rows,
each with a non-negative predicted price and carrying the request's
`Based_On_History` label; a postcode with zero historical rows still yields
the full-horizon sequence, labeled "None". -/
theorem C4_full_horizon (ex : ℚ → ℚ) (model : FeatureVec → Option ℚ) (pc : String)
    (years : ℤ) (fl : List String) (hist : List HRow) (md last : ℤ)
    (hmt : ∀ fv, (model fv).isSome)
    (hy : 1 ≤ years) (hfl : fl ≠ []) (hh : hist ≠ [])
    (hne : (pyStripS pc).isEmpty = false)
    (hd : (get_postcode_district (pyUpperS (pyStripS pc))).isSome = true)
    (hs : (get_postcode_sector (pyUpperS (pyStripS pc))).isSome = true)
    (hlast : lastKnown pc hist = some last) :
    ∃ l, predict_future_prices ex (some model) pc years fl (some hist) (some md) true = some l
      ∧ l.length = (years * 12).toNat
      ∧ (∀ r ∈ l, 0 ≤ r.price ∧ r.basedOn = histLevel pc hist)
      ∧ ((initHist pc hist).isEmpty = true → histLevel pc hist = "None") := by
  refine ⟨_, predict_eq_runLoop ex model pc years fl hist md last hy hfl hh hne hd hs hlast,
    ?_, ?_, ?_⟩
  · have h := (runLoop_total_shape model ex md (pcCleanOf pc) (histLevel pc hist) hmt
      (predDates last (years * 12).toNat) { hist := initHist pc hist, preds := [] }).1
    rw [h, predDates_length]
    simp
  · intro r hr
    have h := (runLoop_total_shape model ex md (pcCleanOf pc) (histLevel pc hist) hmt
      (predDates last (years * 12).toNat) { hist := initHist pc hist, preds := [] }).2 r hr
    rcases h with hin | hgood
    · simp at hin
    · exact hgood
  · intro hemp
    simp [histLevel, hemp]

/-- Witness for C4_full_horizon: a total model over a one-row history at a
one-year horizon yields 12 rows of non-negative prices. -/
theorem C4_full_horizon_witness :
    ∃ l, predict_future_prices (fun x => x) (some (fun _ => some 1)) ("AB1 2CD") 1 (["f"])
        (some [hrowW]) (some 0) true = some l
      ∧ l.length = ((1 : ℤ) * 12).toNat
      ∧ ∀ r ∈ l, 0 ≤ r.price := by
  obtain ⟨l, h1, h2, h3, _⟩ := C4_full_horizon (fun x => x) (fun _ => some 1) ("AB1 2CD") 1
    (["f"]) [hrowW] 0 10 (fun _ => rfl) (by decide) (by decide) (List.cons_ne_nil _ _)
    (by decide) (by decide) (by decide) (by decide)
  exact ⟨l, h1, h2, fun r hr => (h3 r hr).1⟩

/-! ## Claim C6 -/

/-- C6: if the model prediction of some per-month step of the projection
loop fails (the source's `model.predict` exception handler, which `return`s
the partial frame; the history-append handler at lines 1089-1098 returns the
same accumulated list), `predict_future_prices` aborts the loop and returns
exactly the predictions of the `k` months already completed — a possibly
empty partial sequence — rather than failing or discarding them. -/
theorem C6_partial_results (ex : ℚ → ℚ) (model : FeatureVec → Option ℚ) (pc : String)
    (years : ℤ) (fl : List String) (hist : List HRow) (md last : ℤ) (k : ℕ)
    (hy : 1 ≤ years) (hfl : fl ≠ []) (hh : hist ≠ [])
    (hne : (pyStripS pc).isEmpty = false)
    (hd : (get_postcode_district (pyUpperS (pyStripS pc))).isSome = true)
    (hs : (get_postcode_sector (pyUpperS (pyStripS pc))).isSome = true)
    (hlast : lastKnown pc hist = some last)
    (hk : k < (years * 12).toNat)
    (hsucc : ∀ j, j < k →
      (model (buildFV md (runExact model ex md (pcCleanOf pc) (histLevel pc hist)
          ((predDates last (years * 12).toNat).take j)
          { hist := initHist pc hist, preds := [] }).hist
        ((predDates last (years * 12).toNat).getD j 0))).isSome)
    (hfail : model (buildFV md (runExact model ex md (pcCleanOf pc) (histLevel pc hist)
          ((predDates last (years * 12).toNat).take k)
          { hist := initHist pc hist, preds := [] }).hist
        ((predDates last (years * 12).toNat).getD k 0)) = none) :
    predict_future_prices ex (some model) pc years fl (some hist) (some md) true
      = some ((runExact model ex md (pcCleanOf pc) (histLevel pc hist)
          ((predDates last (years * 12).toNat).take k)
          { hist := initHist pc hist, preds := [] }).preds)
    ∧ ((runExact model ex md (pcCleanOf pc) (histLevel pc hist)
          ((predDates last (years * 12).toNat).take k)
          { hist := initHist pc hist, preds := [] }).preds).length = k := by
  have hk' : k < (predDates last (years * 12).toNat).length := by
    rw [predDates_length]; exact hk
  constructor
  · rw [predict_eq_runLoop ex model pc years fl hist md last hy hfl hh hne hd hs hlast]
    rw [runLoop_abort model ex md (pcCleanOf pc) (histLevel pc hist)
      (predDates last (years * 12).toNat) { hist := initHist pc hist, preds := [] } k hk'
      hsucc hfail]
  · have h := runExact_take_length model ex md (pcCleanOf pc) (histLevel pc hist)
      (predDates last (years * 12).toNat) { hist := initHist pc hist, preds := [] } k
      (le_of_lt hk') hsucc
    simpa using h

/-- Witness for C6_partial_results: a model that fails at the second
projected month yields exactly the first month's prediction. -/
theorem C6_partial_results_witness :
    predict_future_prices (fun x => x) (some wModel) ("AB1 2CD") 1 (["f"])
        (some [hrowW]) (some 0) true
      = some ((runExact wModel (fun x => x) 0 (pcCleanOf ("AB1 2CD"))
          (histLevel ("AB1 2CD") [hrowW])
          ((predDates 10 ((1 : ℤ) * 12).toNat).take 1)
          { hist := initHist ("AB1 2CD") [hrowW], preds := [] }).preds)
    ∧ ((runExact wModel (fun x => x) 0 (pcCleanOf ("AB1 2CD"))
          (histLevel ("AB1 2CD") [hrowW])
          ((predDates 10 ((1 : ℤ) * 12).toNat).take 1)
          { hist := initHist ("AB1 2CD") [hrowW], preds := [] }).preds).length = 1 :=
  C6_partial_results (fun x => x) wModel ("AB1 2CD") 1 (["f"]) [hrowW] 0 10 1
    (by decide) (by decide) (List.cons_ne_nil _ _) (by decide) (by decide) (by decide)
    (by decide) (by decide)
    (by
      intro j hj
      have hj0 : j = 0 := by omega
      subst hj0
      decide)
    (by decide)

/-! ## Claim C3 -/

theorem runExact_take_succ (model : FeatureVec → Option ℚ) (ex : ℚ → ℚ) (md : ℤ)
    (pcC lvl : String) (dates : List ℤ) (st : LoopState) (j : ℕ) (hj : j < dates.length) :
    runExact model ex md pcC lvl (dates.take (j + 1)) st
      = stepTot model ex md pcC lvl (runExact model ex md pcC lvl (dates.take j) st)
          (dates.getD j 0) := by
  have h : dates.take (j + 1) = dates.take j ++ [dates.getD j 0] := by
    rw [List.take_succ, List.getElem?_eq_getElem hj, List.getD_eq_getElem?_getD,
      List.getElem?_eq_getElem hj]
    rfl
  rw [h]
  unfold runExact
  rw [List.foldl_append]
  rfl

/-- Along the projection trajectory the history's maximum month after `j`
steps is exactly `last + j`, and the month index stays duplicate-free. -/
theorem runExact_hist_inv (model : FeatureVec → Option ℚ) (ex : ℚ → ℚ) (md : ℤ)
    (pcC lvl : String) (st0 : LoopState) (last : ℤ) (n : ℕ)
    (hmt : ∀ fv, (model fv).isSome)
    (hmax : maxYm st0.hist = some last)
    (hnd : (st0.hist.map (fun r => r.ym)).Nodup) :
    ∀ j, j ≤ n →
      maxYm (runExact model ex md pcC lvl ((predDates last n).take j) st0).hist
          = some (last + j)
      ∧ ((runExact model ex md pcC lvl ((predDates last n).take j) st0).hist.map
          (fun r => r.ym)).Nodup := by
  intro j
  induction j with
  | zero =>
    intro _
    constructor
    · simpa [runExact] using hmax
    · simpa [runExact] using hnd
  | succ j2 ih =>
    intro hj
    obtain ⟨ihmax, ihnd⟩ := ih (by omega)
    have hlen : j2 < (predDates last n).length := by rw [predDates_length]; omega
    have ht : (predDates last n).getD j2 0 = last + 1 + j2 := predDates_getD last n j2 (by omega)
    rw [runExact_take_succ model ex md pcC lvl _ st0 j2 hlen, ht]
    obtain ⟨lp, hm⟩ := Option.isSome_iff_exists.mp
      (hmt (buildFV md (runExact model ex md pcC lvl ((predDates last n).take j2) st0).hist
        (last + 1 + j2)))
    have hstep : stepTot model ex md pcC lvl
        (runExact model ex md pcC lvl ((predDates last n).take j2) st0) (last + 1 + j2)
        = stepLoop pcC lvl ex
            (runExact model ex md pcC lvl ((predDates last n).take j2) st0)
            (last + 1 + j2) lp := by
      unfold stepTot
      rw [hm]
    rw [hstep]
    have hrow : (newHistRow pcC
        (runExact model ex md pcC lvl ((predDates last n).take j2) st0).hist
        (last + 1 + j2) lp (max 0 (ex lp))).ym = last + 1 + j2 := newHistRow_ym _ _ _ _ _
    have hfresh : ∀ x ∈ (runExact model ex md pcC lvl ((predDates last n).take j2) st0).hist,
        x.ym ≠ (newHistRow pcC
          (runExact model ex md pcC lvl ((predDates last n).take j2) st0).hist
          (last + 1 + j2) lp (max 0 (ex lp))).ym := by
      intro x hx
      rw [hrow]
      have ihmax' : listMaxZ
          ((runExact model ex md pcC lvl ((predDates last n).take j2) st0).hist.map
            (fun r => r.ym)) = some (last + j2) := ihmax
      have hle : x.ym ≤ last + j2 :=
        le_listMaxZ _ _ _ (List.mem_map_of_mem (fun r => r.ym) hx) ihmax'
      omega
    have happ := appendDedup_fresh
      (runExact model ex md pcC lvl ((predDates last n).take j2) st0).hist
      (newHistRow pcC (runExact model ex md pcC lvl ((predDates last n).take j2) st0).hist
        (last + 1 + j2) lp (max 0 (ex lp))) hfresh ihnd
    have hh1 : (stepLoop pcC lvl ex
        (runExact model ex md pcC lvl ((predDates last n).take j2) st0)
        (last + 1 + j2) lp).hist
        = appendDedup (runExact model ex md pcC lvl ((predDates last n).take j2) st0).hist
            (newHistRow pcC
              (runExact model ex md pcC lvl ((predDates last n).take j2) st0).hist
              (last + 1 + j2) lp (max 0 (ex lp))) := rfl
    constructor
    · rw [hh1, happ]
      unfold maxYm
      rw [List.map_append, List.map_cons, List.map_nil, hrow]
      have := listMaxZ_append_one
        ((runExact model ex md pcC lvl ((predDates last n).take j2) st0).hist.map
          (fun r => r.ym)) (last + 1 + j2) (last + j2) ihmax
      rw [this]
      congr 1
      rw [max_eq_right (by omega)]
      push_cast
      ring
    · rw [hh1, happ, List.map_append, List.map_cons, List.map_nil]
      refine List.Nodup.append ihnd (by simp) ?_
      intro a ha hb
      simp only [List.mem_singleton] at hb
      subst hb
      obtain ⟨x, hx, hxy⟩ := List.mem_map.mp ha
      exact hfresh x hx hxy

/-- C3: after each iteration of the projection loop the per-request history
panel's maximum month has advanced by exactly one month relative to before
the iteration, and the panel never holds two rows with the same
(Postcode, YearMonth) key. -/
theorem C3_monotone_history (model : FeatureVec → Option ℚ) (ex : ℚ → ℚ) (md : ℤ)
    (pcC lvl : String) (st0 : LoopState) (last : ℤ) (n j : ℕ)
    (hmt : ∀ fv, (model fv).isSome)
    (hmax : maxYm st0.hist = some last)
    (hnd : (st0.hist.map (fun r => r.ym)).Nodup)
    (hj : j < n) :
    maxYm (runLoop model ex md pcC lvl ((predDates last n).take j) st0).hist
        = some (last + j)
    ∧ maxYm (runLoop model ex md pcC lvl ((predDates last n).take (j + 1)) st0).hist
        = some (last + j + 1)
    ∧ ((runLoop model ex md pcC lvl ((predDates last n).take (j + 1)) st0).hist.map
        (fun r => (r.pc, r.ym))).Nodup := by
  simp only [runLoop_eq_runExact model ex md pcC lvl hmt]
  obtain ⟨h1, _⟩ := runExact_hist_inv model ex md pcC lvl st0 last n hmt hmax hnd j
    (le_of_lt hj)
  obtain ⟨h2, h2n⟩ := runExact_hist_inv model ex md pcC lvl st0 last n hmt hmax hnd (j + 1) hj
  refine ⟨h1, ?_, ?_⟩
  · rw [h2]
    congr 1
    push_cast
    ring
  · have hm2 : (((runExact model ex md pcC lvl ((predDates last n).take (j + 1)) st0).hist.map
        (fun r => (r.pc, r.ym))).map Prod.snd).Nodup := by
      rw [List.map_map]
      exact h2n
    exact List.Nodup.of_map Prod.snd hm2

/-- Witness for C3_monotone_history: a concrete one-row history advances to
maximum month 11 after the first iteration, with duplicate-free keys. -/
theorem C3_monotone_history_witness :
    maxYm (runLoop (fun _ => some 1) (fun x => x) 0 ("AB12CD") ("Postcode")
        ((predDates 10 2).take 1) { hist := [hrowW], preds := [] }).hist = some 11
    ∧ ((runLoop (fun _ => some 1) (fun x => x) 0 ("AB12CD") ("Postcode")
        ((predDates 10 2).take 1) { hist := [hrowW], preds := [] }).hist.map
        (fun r => (r.pc, r.ym))).Nodup := by
  obtain ⟨h1, h2, h3⟩ := C3_monotone_history (fun _ => some 1) (fun x => x) 0 ("AB12CD")
    ("Postcode") { hist := [hrowW], preds := [] } 10 2 0 (fun _ => rfl) (by decide)
    (by decide) (by decide)
  exact ⟨h2.trans (by norm_num), h3⟩

/-! ## Contiguous-panel lemmas, towards claims C1 and C2 -/

theorem find_map_range' {α : Type} (f : ℕ → α) (q : α → Bool) :
    ∀ (len lo j : ℕ), lo ≤ j → j < lo + len →
      (∀ k, lo ≤ k → k < lo + len → (q (f k) = true ↔ k = j)) →
      ((List.range' lo len).map f).find? q = some (f j) := by
  intro len
  induction len with
  | zero => intro lo j h1 h2 _; omega
  | succ m ih =>
    intro lo j h1 h2 hq
    rw [List.range'_succ, List.map_cons]
    by_cases hlo : lo = j
    · subst hlo
      exact List.find?_cons_of_pos _ ((hq lo le_rfl (by omega)).mpr rfl)
    · have hfalse : ¬ (q (f lo) = true) := fun hb => hlo ((hq lo le_rfl (by omega)).mp hb)
      rw [List.find?_cons_of_neg _ hfalse]
      exact ih (lo + 1) j (by omega) (by omega) (fun k hk1 hk2 => hq k (by omega) (by omega))

theorem filter_map_range'_nil {α : Type} (f : ℕ → α) (q : α → Bool)
    (len lo : ℕ) (h : ∀ k, lo ≤ k → k < lo + len → q (f k) = false) :
    ((List.range' lo len).map f).filter q = [] := by
  rw [List.filter_eq_nil_iff]
  intro a ha
  obtain ⟨k, hk, rfl⟩ := List.mem_map.mp ha
  obtain ⟨h1, h2⟩ := List.mem_range'_1.mp hk
  simp [h k h1 h2]

theorem filter_map_range'_interval {α : Type} (f : ℕ → α) (q : α → Bool) :
    ∀ (len start lo hi : ℕ), start ≤ lo → lo ≤ hi → hi ≤ start + len →
      (∀ k, start ≤ k → k < start + len → (q (f k) = true ↔ (lo ≤ k ∧ k < hi))) →
      ((List.range' start len).map f).filter q = (List.range' lo (hi - lo)).map f := by
  intro len
  induction len with
  | zero =>
    intro start lo hi h1 h2 h3 _
    have h4 : hi - lo = 0 := by omega
    simp [h4]
  | succ m ih =>
    intro start lo hi h1 h2 h3 hq
    by_cases hcase : hi ≤ start
    · have h4 : hi - lo = 0 := by omega
      rw [h4, filter_map_range'_nil f q (m + 1) start ?_]
      · simp
      · intro k hk1 hk2
        rcases hb : q (f k) with _ | _
        · rfl
        · have := (hq k hk1 hk2).mp hb
          omega
    · rw [List.range'_succ, List.map_cons]
      by_cases hslo : start < lo
      · have hfalse : q (f start) = false := by
          rcases hb : q (f start) with _ | _
          · rfl
          · have := (hq start le_rfl (by omega)).mp hb
            omega
        rw [List.filter_cons, if_neg (by simp [hfalse])]
        exact ih (start + 1) lo hi (by omega) h2 (by omega)
          (fun k hk1 hk2 => hq k (by omega) (by omega))
      · have hl : start = lo := by omega
        subst hl
        have htrue : q (f start) = true :=
          (hq start le_rfl (by omega)).mpr ⟨le_rfl, by omega⟩
        rw [List.filter_cons, if_pos htrue]
        have hrec := ih (start + 1) (start + 1) hi (le_refl _) (by omega) (by omega)
          (fun k hk1 hk2 => by
            constructor
            · intro hb
              have := (hq k (by omega) (by omega)).mp hb
              omega
            · intro hk
              exact (hq k (by omega) (by omega)).mpr (by omega))
        rw [hrec]
        have hsz : hi - start = (hi - (start + 1)) + 1 := by omega
        rw [hsz, List.range'_succ, List.map_cons]

theorem filterMap_if_lt {α : Type} (h : ℕ → α) (i : ℕ) :
    ∀ (len lo : ℕ),
      (List.range' lo len).filterMap (fun k => if k < i then some (h k) else none)
        = (List.range' lo (min len (i - lo))).map h := by
  intro len
  induction len with
  | zero => intro lo; simp
  | succ m ih =>
    intro lo
    rw [List.range'_succ]
    by_cases hlo : lo < i
    · simp only [List.filterMap_cons, if_pos hlo]
      rw [ih (lo + 1)]
      have hm : min (m + 1) (i - lo) = (min m (i - (lo + 1))) + 1 := by omega
      rw [hm, List.range'_succ, List.map_cons]
    · simp only [List.filterMap_cons, if_neg hlo]
      rw [ih (lo + 1)]
      have h1 : min m (i - (lo + 1)) = 0 := by omega
      have h2 : min (m + 1) (i - lo) = 0 := by omega
      rw [h1, h2]
      simp

theorem map_range_rev {α : Type} (c : ℕ → α) (m i : ℕ) (hm : m ≤ i) :
    (List.range m).map (fun k => c (i - 1 - k)) = ((List.range' (i - m) m).map c).reverse := by
  refine List.ext_getElem (by simp) ?_
  intro j h1 h2
  simp only [List.getElem_map, List.getElem_range, List.getElem_reverse, List.length_map,
    List.length_range', List.getElem_range']
  congr 1
  simp only [List.length_map, List.length_range] at h1
  omega

theorem sortRows_of_pairwise : ∀ (l : List ARow),
    l.Pairwise (fun a b => leKey a b = true) → sortRows l = l := by
  intro l
  induction l with
  | nil => intro _; rfl
  | cons x xs ih =>
    intro hp
    obtain ⟨hx, hxs⟩ := List.pairwise_cons.mp hp
    show insRow x (sortRows xs) = x :: xs
    rw [ih hxs]
    cases xs with
    | nil => rfl
    | cons y ys =>
      show (if leKey x y then x :: y :: ys else y :: insRow x ys) = x :: y :: ys
      rw [if_pos (hx y (by simp))]

theorem leKey_contig (p s d : String) (ym0 : ℤ) (v : ℕ → PanelVals) (j k : ℕ) (hjk : j ≤ k) :
    leKey (contigRow p s d ym0 v j) (contigRow p s d ym0 v k) = true := by
  simp only [leKey, contigRow, ne_eq, not_true_eq_false, if_false, ite_self,
    decide_eq_true_eq]
  omega

theorem sortPanel_contig (p s d : String) (ym0 : ℤ) (v : ℕ → PanelVals) (n : ℕ) :
    sortPanel (contigPanel p s d ym0 v n) = contigPanel p s d ym0 v n := by
  unfold sortPanel
  apply sortRows_of_pairwise
  unfold contigPanel
  rw [List.pairwise_map]
  exact (List.pairwise_lt_range n).imp (fun h => leKey_contig p s d ym0 v _ _ (le_of_lt h))

theorem panelRow_contig (p s d : String) (ym0 : ℤ) (v : ℕ → PanelVals) (n i : ℕ)
    (hi : i < n) :
    panelRow (contigPanel p s d ym0 v n) i = contigRow p s d ym0 v i := by
  unfold panelRow
  rw [sortPanel_contig]
  unfold contigPanel
  rw [List.getD_eq_getElem?_getD, List.getElem?_map, List.getElem?_range hi]
  rfl

theorem famKeyA_contigRow (p s d : String) (ym0 : ℤ) (v : ℕ → PanelVals) (fam : LagFam)
    (k : ℕ) : famKeyA fam (contigRow p s d ym0 v k) = famKeyStr p s d fam := by
  cases fam <;> rfl

theorem levelKeyA_contigRow (p s d : String) (ym0 : ℤ) (v : ℕ → PanelVals) (lvl : GeoLevel)
    (k : ℕ) : levelKeyA lvl (contigRow p s d ym0 v k) = levelKeyStr p s d lvl := by
  cases lvl <;> rfl

theorem famColH_toHRowA (g : ℚ → ℚ) (fam : LagFam) (r : ARow) :
    famColH fam (toHRowA g r) = famValA g fam r := by
  cases fam <;> rfl

theorem levelCntH_toHRowA (g : ℚ → ℚ) (lvl : GeoLevel) (r : ARow) :
    levelCntH lvl (toHRowA g r) = levelCntA lvl r := by
  cases lvl <;> rfl

theorem levelPtH_toHRowA (g : ℚ → ℚ) (lvl : GeoLevel) (pt : PropType) (r : ARow) :
    levelPtH lvl pt (toHRowA g r) = levelPtA lvl pt r := by
  cases lvl <;> rfl

theorem priorSame_contig (p s d : String) (ym0 : ℤ) (v : ℕ → PanelVals)
    (keyf : ARow → String) (c : String)
    (hconst : ∀ k, keyf (contigRow p s d ym0 v k) = c) (i n : ℕ) (hi : i < n) :
    priorSame (contigPanel p s d ym0 v n) keyf i
      = (List.range i).map (contigRow p s d ym0 v) := by
  unfold priorSame
  rw [sortPanel_contig]
  show ((contigPanel p s d ym0 v n).take i).filter _ = _
  unfold contigPanel
  rw [← List.map_take, List.take_range]
  have hmin : min i n = i := by omega
  rw [hmin]
  apply List.filter_eq_self.mpr
  intro a ha
  obtain ⟨k, hk, rfl⟩ := List.mem_map.mp ha
  have hpr : panelRow (List.map (contigRow p s d ym0 v) (List.range n)) i
      = contigRow p s d ym0 v i := panelRow_contig p s d ym0 v n i hi
  rw [hpr]
  simp [hconst k, hconst i]

theorem gShift_contig (p s d : String) (ym0 : ℤ) (v : ℕ → PanelVals)
    (keyf : ARow → String) (valf : ARow → ℚ) (c : String)
    (hconst : ∀ k, keyf (contigRow p s d ym0 v k) = c) (lag i n : ℕ)
    (hl : 1 ≤ lag) (hi : i < n) :
    gShift (contigPanel p s d ym0 v n) keyf valf lag i
      = if lag ≤ i then some (valf (contigRow p s d ym0 v (i - lag))) else none := by
  unfold gShift
  rw [priorSame_contig p s d ym0 v keyf c hconst i n hi, List.get?_eq_getElem?]
  by_cases hli : lag ≤ i
  · rw [if_pos hli]
    have h1 : lag - 1 < ((List.range i).map (contigRow p s d ym0 v)).length := by
      simp only [List.length_map, List.length_range]
      omega
    rw [List.getElem?_reverse h1]
    simp only [List.length_map, List.length_range]
    rw [List.getElem?_map, List.getElem?_range (show i - 1 - (lag - 1) < i by omega)]
    have h2 : i - 1 - (lag - 1) = i - lag := by omega
    rw [h2]
    rfl
  · rw [if_neg hli]
    rw [List.getElem?_eq_none ?_]
    · rfl
    · simp only [List.length_reverse, List.length_map, List.length_range]
      omega

theorem trainLagRaw_contig (g : ℚ → ℚ) (p s d : String) (ym0 : ℤ) (v : ℕ → PanelVals)
    (fam : LagFam) (lag i n : ℕ) (hl : 1 ≤ lag) (hi : i < n) :
    trainLagRaw g (contigPanel p s d ym0 v n) fam lag i
      = if lag ≤ i then some (famValA g fam (contigRow p s d ym0 v (i - lag))) else none := by
  unfold trainLagRaw
  exact gShift_contig p s d ym0 v (famKeyA fam) (famValA g fam) (famKeyStr p s d fam)
    (famKeyA_contigRow p s d ym0 v fam) lag i n hl hi

/-! ## Claim C1 -/

/-- C1 (amended): on a panel whose geography group occupies one row per
consecutive calendar month (no month gaps), the training-time lag feature of
the row at month `ym0 + i` equals the group's base value at calendar month
`(ym0 + i) − lag` with the documented default when that month is absent,
and the projection loop's per-month lookup of `current_month − lag` computes
the identical value; `C1_counterexample` shows the identity fails once a
month is missing (the training shift is positional). -/
theorem C1_lag_consistency (g : ℚ → ℚ) (md ym0 : ℤ) (p s d : String) (v : ℕ → PanelVals)
    (n : ℕ) (fam : LagFam) (lag i : ℕ) (hl : 1 ≤ lag) (hi : i < n) :
    trainLag g (contigPanel p s d ym0 v n) fam lag i
        = specCalendarLag (contigPanel p s d ym0 v n) (famKeyA fam) (famValA g fam)
            (famDefault fam) (famKeyStr p s d fam) (ym0 + i) lag
    ∧ trainLag g (contigPanel p s d ym0 v n) fam lag i
        = (buildFV md (histOfPanel g (contigPanel p s d ym0 v n)) (ym0 + i)).lagVal fam lag := by
  have hR : ∀ fam', trainLagRaw g (contigPanel p s d ym0 v n) fam' lag i
      = if lag ≤ i then some (famValA g fam' (contigRow p s d ym0 v (i - lag))) else none :=
    fun fam' => trainLagRaw_contig g p s d ym0 v fam' lag i n hl hi
  have hTrain : trainLag g (contigPanel p s d ym0 v n) fam lag i
      = if lag ≤ i then famValA g fam (contigRow p s d ym0 v (i - lag)) else famDefault fam := by
    by_cases hli : lag ≤ i
    · cases fam <;> simp [trainLag, hR, hli, oor]
    · cases fam <;> simp [trainLag, hR, hli, oor, famDefault]
  have hSpec : specCalendarLag (contigPanel p s d ym0 v n) (famKeyA fam) (famValA g fam)
      (famDefault fam) (famKeyStr p s d fam) (ym0 + i) lag
      = if lag ≤ i then famValA g fam (contigRow p s d ym0 v (i - lag)) else famDefault fam := by
    unfold specCalendarLag contigPanel
    by_cases hli : lag ≤ i
    · rw [List.range_eq_range']
      rw [find_map_range' (contigRow p s d ym0 v) _ n 0 (i - lag) (by omega) (by omega) ?_]
      · rw [if_pos hli]
        rfl
      · intro k hk1 hk2
        simp only [decide_eq_true_eq, famKeyA_contigRow, eq_self_iff_true, true_and]
        simp only [contigRow]
        omega
    · rw [if_neg hli]
      rw [List.find?_eq_none.mpr ?_]
      · rfl
      · intro x hx
        obtain ⟨k, hk, rfl⟩ := List.mem_map.mp hx
        simp only [decide_eq_true_eq, famKeyA_contigRow, eq_self_iff_true, true_and, not_and]
        simp only [contigRow]
        intro _
        omega
  have hProj : (buildFV md (histOfPanel g (contigPanel p s d ym0 v n)) (ym0 + i)).lagVal fam lag
      = if lag ≤ i then famValA g fam (contigRow p s d ym0 v (i - lag)) else famDefault fam := by
    show (match histFind (histOfPanel g (contigPanel p s d ym0 v n)) ((ym0 + i) - lag) with
      | some r => famColH fam r
      | none => famDefault fam) = _
    unfold histFind histOfPanel contigPanel
    rw [List.map_map, List.range_eq_range']
    by_cases hli : lag ≤ i
    · rw [find_map_range' _ _ n 0 (i - lag) (by omega) (by omega) ?_]
      · rw [if_pos hli]
        show famColH fam (toHRowA g (contigRow p s d ym0 v (i - lag))) = _
        exact famColH_toHRowA g fam _
      · intro k hk1 hk2
        simp only [decide_eq_true_eq, Function.comp, toHRowA, contigRow]
        omega
    · rw [List.find?_eq_none.mpr ?_]
      · rw [if_neg hli]
      · intro x hx
        obtain ⟨k, hk, rfl⟩ := List.mem_map.mp hx
        simp only [decide_eq_true_eq, Function.comp, toHRowA, contigRow]
        omega
  exact ⟨hTrain.trans hSpec.symm, hTrain.trans hProj.symm⟩

/-- Witness for C1_lag_consistency on a concrete three-month single-postcode
panel at lag 1, row 2. -/
theorem C1_lag_consistency_witness :
    trainLag (fun x => x) (contigPanel ("AA11AA") ("AA1 1") ("AA1") 100 wVals 3) .countPc 1 2
        = specCalendarLag (contigPanel ("AA11AA") ("AA1 1") ("AA1") 100 wVals 3)
            (famKeyA .countPc) (famValA (fun x => x) .countPc) (famDefault .countPc)
            (famKeyStr ("AA11AA") ("AA1 1") ("AA1") .countPc) (100 + (2 : ℕ)) 1
    ∧ trainLag (fun x => x) (contigPanel ("AA11AA") ("AA1 1") ("AA1") 100 wVals 3) .countPc 1 2
        = (buildFV 0 (histOfPanel (fun x => x)
            (contigPanel ("AA11AA") ("AA1 1") ("AA1") 100 wVals 3)) (100 + (2 : ℕ))).lagVal
            .countPc 1 :=
  C1_lag_consistency (fun x => x) 0 100 ("AA11AA") ("AA1 1") ("AA1") wVals 3 .countPc 1 2
    (by decide) (by decide)

/-! ## Claim C2 -/

theorem filterMap_congr_fn {α β : Type} (f g : α → Option β) (l : List α)
    (h : ∀ x ∈ l, f x = g x) : l.filterMap f = l.filterMap g :=
  List.filterMap_congr h

theorem getD_ite_sum (l : List ℚ) :
    (if l.isEmpty then (none : Option ℚ) else some l.sum).getD 0 = l.sum := by
  cases l with
  | nil => rfl
  | cons x xs => rfl

theorem map_range'_rev {α : Type} (c : ℕ → α) (m i : ℕ) (hm : m ≤ i) :
    (List.range' 0 m).map (fun k => c (i - 1 - k)) = ((List.range' (i - m) m).map c).reverse := by
  refine List.ext_getElem (by simp) ?_
  intro j h1 h2
  simp only [List.getElem_map, List.getElem_reverse, List.length_map, List.length_range',
    List.getElem_range']
  congr 1
  simp only [List.length_map, List.length_range'] at h1
  omega

theorem txRoll_contig (p s d : String) (ym0 : ℤ) (v : ℕ → PanelVals)
    (keyf : ARow → String) (valf : ARow → ℚ) (c : String)
    (hconst : ∀ k, keyf (contigRow p s d ym0 v k) = c) (w i n : ℕ) (hi : i < n) :
    txRoll (contigPanel p s d ym0 v n) keyf valf w i
      = ((List.range' (i - w) (min w i)).map (fun k => valf (contigRow p s d ym0 v k))).sum := by
  have hshift : ∀ j ∈ winIdx w i,
      gShift (contigPanel p s d ym0 v n) keyf valf 1 j
        = if 1 ≤ j then some (valf (contigRow p s d ym0 v (j - 1))) else none := by
    intro j hj
    have hj' : j < n := by
      obtain ⟨k, _, rfl⟩ := List.mem_map.mp hj
      omega
    exact gShift_contig p s d ym0 v keyf valf c hconst 1 j n le_rfl hj'
  simp only [txRoll, rollRaw]
  rw [filterMap_congr_fn (fun j => gShift (contigPanel p s d ym0 v n) keyf valf 1 j)
    (fun j => if 1 ≤ j then some (valf (contigRow p s d ym0 v (j - 1))) else none)
    (winIdx w i) hshift]
  simp only [winIdx]
  rw [List.filterMap_map]
  have hcong : ∀ k ∈ List.range (min w (i + 1)),
      ((fun j => if 1 ≤ j then some (valf (contigRow p s d ym0 v (j - 1))) else none)
        ∘ (fun k => i - k)) k
      = (fun x => if x < i then some (valf (contigRow p s d ym0 v (i - 1 - x))) else none) k := by
    intro k _
    simp only [Function.comp]
    by_cases hk : k < i
    · rw [if_pos (by omega), if_pos hk]
      have he : i - k - 1 = i - 1 - k := by omega
      rw [he]
    · rw [if_neg (by omega), if_neg hk]
  rw [filterMap_congr_fn _ _ _ hcong]
  rw [List.range_eq_range',
    filterMap_if_lt (fun x => valf (contigRow p s d ym0 v (i - 1 - x))) i (min w (i + 1)) 0]
  have hm : min (min w (i + 1)) (i - 0) = min w i := by omega
  rw [hm, getD_ite_sum]
  rw [map_range'_rev (fun k => valf (contigRow p s d ym0 v k)) (min w i) i (by omega)]
  rw [List.sum_reverse]
  have h2 : i - min w i = i - w := by omega
  rw [h2]

theorem specRoll_contig (p s d : String) (ym0 : ℤ) (v : ℕ → PanelVals)
    (keyf : ARow → String) (valf : ARow → ℚ) (c : String)
    (hconst : ∀ k, keyf (contigRow p s d ym0 v k) = c) (w i n : ℕ) (hi : i < n) :
    specCalendarRoll (contigPanel p s d ym0 v n) keyf valf c (ym0 + i) w
      = ((List.range' (i - w) (min w i)).map (fun k => valf (contigRow p s d ym0 v k))).sum := by
  unfold specCalendarRoll contigPanel
  rw [List.range_eq_range']
  rw [filter_map_range'_interval (contigRow p s d ym0 v) _ n 0 (i - w) i (by omega) (by omega)
    (by omega) ?_]
  · rw [List.map_map]
    have h3 : i - (i - w) = min w i := by omega
    rw [h3]
    rfl
  · intro k hk1 hk2
    simp only [decide_eq_true_eq, hconst, eq_self_iff_true, true_and]
    simp only [contigRow]
    omega

theorem fvRoll_contig (g : ℚ → ℚ) (p s d : String) (ym0 : ℤ) (v : ℕ → PanelVals)
    (vf : HRow → ℚ) (w i n : ℕ) (hi : i < n) :
    (((histOfPanel g (contigPanel p s d ym0 v n)).filter
        (fun r => decide (ym0 + (i : ℤ) - (w : ℤ) ≤ r.ym ∧ r.ym ≤ ym0 + (i : ℤ) - 1))).map
        vf).sum
      = ((List.range' (i - w) (min w i)).map
          (fun k => vf (toHRowA g (contigRow p s d ym0 v k)))).sum := by
  unfold histOfPanel contigPanel
  rw [List.map_map, List.range_eq_range']
  rw [filter_map_range'_interval _ _ n 0 (i - w) i (by omega) (by omega) (by omega) ?_]
  · rw [List.map_map]
    have h3 : i - (i - w) = min w i := by omega
    rw [h3]
    rfl
  · intro k hk1 hk2
    simp only [decide_eq_true_eq, Function.comp, toHRowA]
    simp only [contigRow]
    omega

/-- C2 (amended): on a panel whose geography group occupies one row per
consecutive calendar month, every rolling transaction-count sum and rolling
property-type percentage for the row at month `ym0 + i` is computed from the
trailing calendar window `[t−w, t−1]` only, identically in the training
pipeline, in the claim's calendar reading, and in the projection loop's
per-month recomputation (counts assumed non-negative for the two percentage
conventions to agree); `C2_counterexample` shows the training window leaks
across a group boundary once several groups are stacked. -/
theorem C2_rolling_consistency (g : ℚ → ℚ) (md ym0 : ℤ) (p s d : String) (v : ℕ → PanelVals)
    (n : ℕ) (lvl : GeoLevel) (pt : PropType) (w i : ℕ) (hi : i < n)
    (hcnt : ∀ k, 0 ≤ levelCntA lvl (contigRow p s d ym0 v k)) :
    trainRoll (contigPanel p s d ym0 v n) lvl w i
        = specCalendarRoll (contigPanel p s d ym0 v n) (levelKeyA lvl) (levelCntA lvl)
            (levelKeyStr p s d lvl) (ym0 + i) w
    ∧ trainRoll (contigPanel p s d ym0 v n) lvl w i
        = (buildFV md (histOfPanel g (contigPanel p s d ym0 v n)) (ym0 + i)).rollVal lvl w
    ∧ trainPerc (contigPanel p s d ym0 v n) lvl pt w i
        = specCalendarPerc (contigPanel p s d ym0 v n) (levelKeyA lvl) (levelCntA lvl)
            (levelPtA lvl pt) (levelKeyStr p s d lvl) (ym0 + i) w
    ∧ trainPerc (contigPanel p s d ym0 v n) lvl pt w i
        = (buildFV md (histOfPanel g (contigPanel p s d ym0 v n)) (ym0 + i)).percVal lvl pt w := by
  have hT : ∀ valf, txRoll (contigPanel p s d ym0 v n) (levelKeyA lvl) valf w i
      = ((List.range' (i - w) (min w i)).map (fun k => valf (contigRow p s d ym0 v k))).sum :=
    fun valf => txRoll_contig p s d ym0 v (levelKeyA lvl) valf (levelKeyStr p s d lvl)
      (levelKeyA_contigRow p s d ym0 v lvl) w i n hi
  have hS : ∀ valf, specCalendarRoll (contigPanel p s d ym0 v n) (levelKeyA lvl) valf
        (levelKeyStr p s d lvl) (ym0 + i) w
      = ((List.range' (i - w) (min w i)).map (fun k => valf (contigRow p s d ym0 v k))).sum :=
    fun valf => specRoll_contig p s d ym0 v (levelKeyA lvl) valf (levelKeyStr p s d lvl)
      (levelKeyA_contigRow p s d ym0 v lvl) w i n hi
  have hFc : (buildFV md (histOfPanel g (contigPanel p s d ym0 v n)) (ym0 + i)).rollVal lvl w
      = ((List.range' (i - w) (min w i)).map
          (fun k => levelCntA lvl (contigRow p s d ym0 v k))).sum := by
    simp only [buildFV]
    rw [fvRoll_contig g p s d ym0 v (levelCntH lvl) w i n hi]
    simp only [levelCntH_toHRowA]
  have hFp : (buildFV md (histOfPanel g (contigPanel p s d ym0 v n)) (ym0 + i)).percVal lvl pt w
      = (if 0 < ((List.range' (i - w) (min w i)).map
            (fun k => levelCntA lvl (contigRow p s d ym0 v k))).sum
         then ((List.range' (i - w) (min w i)).map
            (fun k => levelPtA lvl pt (contigRow p s d ym0 v k))).sum
            / ((List.range' (i - w) (min w i)).map
            (fun k => levelCntA lvl (contigRow p s d ym0 v k))).sum
         else 0) := by
    simp only [buildFV]
    rw [fvRoll_contig g p s d ym0 v (levelCntH lvl) w i n hi,
      fvRoll_contig g p s d ym0 v (levelPtH lvl pt) w i n hi]
    simp only [levelCntH_toHRowA, levelPtH_toHRowA]
  have hTrainPerc : trainPerc (contigPanel p s d ym0 v n) lvl pt w i
      = (if ((List.range' (i - w) (min w i)).map
            (fun k => levelCntA lvl (contigRow p s d ym0 v k))).sum = 0
         then 0
         else ((List.range' (i - w) (min w i)).map
            (fun k => levelPtA lvl pt (contigRow p s d ym0 v k))).sum
            / ((List.range' (i - w) (min w i)).map
            (fun k => levelCntA lvl (contigRow p s d ym0 v k))).sum) := by
    have hT2c : (rollRaw (contigPanel p s d ym0 v n) (levelKeyA lvl) (levelCntA lvl) w i).getD 0
        = ((List.range' (i - w) (min w i)).map
            (fun k => levelCntA lvl (contigRow p s d ym0 v k))).sum := hT (levelCntA lvl)
    have hT2p : (rollRaw (contigPanel p s d ym0 v n) (levelKeyA lvl) (levelPtA lvl pt) w
          i).getD 0
        = ((List.range' (i - w) (min w i)).map
            (fun k => levelPtA lvl pt (contigRow p s d ym0 v k))).sum := hT (levelPtA lvl pt)
    simp only [trainPerc, ptPerc]
    rw [hT2c, hT2p]
  have hSpecPerc : specCalendarPerc (contigPanel p s d ym0 v n) (levelKeyA lvl)
        (levelCntA lvl) (levelPtA lvl pt) (levelKeyStr p s d lvl) (ym0 + i) w
      = (if ((List.range' (i - w) (min w i)).map
            (fun k => levelCntA lvl (contigRow p s d ym0 v k))).sum = 0
         then 0
         else ((List.range' (i - w) (min w i)).map
            (fun k => levelPtA lvl pt (contigRow p s d ym0 v k))).sum
            / ((List.range' (i - w) (min w i)).map
            (fun k => levelCntA lvl (contigRow p s d ym0 v k))).sum) := by
    simp only [specCalendarPerc]
    rw [hS (levelCntA lvl), hS (levelPtA lvl pt)]
  have h0 : 0 ≤ ((List.range' (i - w) (min w i)).map
      (fun k => levelCntA lvl (contigRow p s d ym0 v k))).sum := by
    apply List.sum_nonneg
    intro x hx
    obtain ⟨k, _, rfl⟩ := List.mem_map.mp hx
    exact hcnt k
  have hcmp : (if ((List.range' (i - w) (min w i)).map
          (fun k => levelCntA lvl (contigRow p s d ym0 v k))).sum = 0
        then 0
        else ((List.range' (i - w) (min w i)).map
          (fun k => levelPtA lvl pt (contigRow p s d ym0 v k))).sum
          / ((List.range' (i - w) (min w i)).map
          (fun k => levelCntA lvl (contigRow p s d ym0 v k))).sum)
      = (if 0 < ((List.range' (i - w) (min w i)).map
            (fun k => levelCntA lvl (contigRow p s d ym0 v k))).sum
         then ((List.range' (i - w) (min w i)).map
            (fun k => levelPtA lvl pt (contigRow p s d ym0 v k))).sum
            / ((List.range' (i - w) (min w i)).map
            (fun k => levelCntA lvl (contigRow p s d ym0 v k))).sum
         else 0) := by
    by_cases hz : ((List.range' (i - w) (min w i)).map
        (fun k => levelCntA lvl (contigRow p s d ym0 v k))).sum = 0
    · rw [if_pos hz, if_neg (by rw [hz]; exact lt_irrefl 0)]
    · rw [if_neg hz, if_pos (lt_of_le_of_ne h0 (Ne.symm hz))]
  refine ⟨?_, ?_, ?_, ?_⟩
  · show txRoll (contigPanel p s d ym0 v n) (levelKeyA lvl) (levelCntA lvl) w i = _
    rw [hT (levelCntA lvl), hS (levelCntA lvl)]
  · show txRoll (contigPanel p s d ym0 v n) (levelKeyA lvl) (levelCntA lvl) w i = _
    rw [hT (levelCntA lvl), hFc]
  · rw [hTrainPerc, hSpecPerc]
  · rw [hTrainPerc, hFp, hcmp]

/-- Witness for C2_rolling_consistency on a concrete three-month
single-postcode panel at window 3, row 2, postcode level, Detached mix. -/
theorem C2_rolling_consistency_witness :
    trainRoll (contigPanel ("AA11AA") ("AA1 1") ("AA1") 100 wVals 3) .pc 3 2
        = specCalendarRoll (contigPanel ("AA11AA") ("AA1 1") ("AA1") 100 wVals 3)
            (levelKeyA .pc) (levelCntA .pc) (levelKeyStr ("AA11AA") ("AA1 1") ("AA1") .pc)
            (100 + (2 : ℕ)) 3
    ∧ trainRoll (contigPanel ("AA11AA") ("AA1 1") ("AA1") 100 wVals 3) .pc 3 2
        = (buildFV 0 (histOfPanel (fun x => x)
            (contigPanel ("AA11AA") ("AA1 1") ("AA1") 100 wVals 3)) (100 + (2 : ℕ))).rollVal
            .pc 3
    ∧ trainPerc (contigPanel ("AA11AA") ("AA1 1") ("AA1") 100 wVals 3) .pc .detached 3 2
        = specCalendarPerc (contigPanel ("AA11AA") ("AA1 1") ("AA1") 100 wVals 3)
            (levelKeyA .pc) (levelCntA .pc) (levelPtA .pc .detached)
            (levelKeyStr ("AA11AA") ("AA1 1") ("AA1") .pc) (100 + (2 : ℕ)) 3
    ∧ trainPerc (contigPanel ("AA11AA") ("AA1 1") ("AA1") 100 wVals 3) .pc .detached 3 2
        = (buildFV 0 (histOfPanel (fun x => x)
            (contigPanel ("AA11AA") ("AA1 1") ("AA1") 100 wVals 3)) (100 + (2 : ℕ))).percVal
            .pc .detached 3 :=
  C2_rolling_consistency (fun x => x) 0 100 ("AA11AA") ("AA1 1") ("AA1") wVals 3 .pc .detached
    3 2 (by decide)
    (by
      intro k
      simp only [levelCntA, contigRow, wVals]
      positivity)
